import Mathlib

/-!
Verification of the Live-rocket HTTP framework (src/live_rocket.py,
src/request.py, src/response.py) against its natural-language specification.

The embedding follows the Python source closely:
* Python `dict` is modelled as an association list with first-key-wins lookup
  and update-in-place-or-append assignment (insertion order preserved).
* `re`-based pattern compilation (`URLPattern._compile_pattern`) is modelled at
  the string level: the placeholder scanner mirrors the leftmost,
  non-overlapping semantics of `re.finditer` applied to the placeholder regex
  `<(?:([^:>]+):)?([^>]+)>`, and each placeholder occurrence is substituted
  via first-occurrence string replacement, exactly as the source does.
* `re.match` on the generated regexes is modelled by parsing the generated
  regex string into a sequence of literal characters, `.` wildcards, the
  five known capturing atoms, and capturing groups of literal characters
  (which arise when the template's own text contains parentheses and which
  shift Python's group numbering), then running a greedy backtracking matcher that
  mirrors the Python engine's leftmost-greedy capture semantics, anchored at
  both ends, with `$` also accepting a single trailing newline (as in Python).
  A generated regex that uses constructs outside that fragment (only possible
  when the route template itself contains regex metacharacters) is outside the
  model's domain and is treated as non-matching.
* `\d` is modelled as the ASCII digits (Python's `\d` also covers other
  Unicode digits; no claim depends on the difference).
* Machine-level strings are `List Char`; raw bytes are `List Nat`.
-/

set_option autoImplicit false

namespace LiveRocket

/-- Python values that URL-parameter conversion can produce.  `float` keeps the
matched text symbolic: the routing logic never inspects the floating-point
value, only constructs it. -/
inductive PyVal where
  | str (s : String)
  | int (n : Int)
  | float (raw : String)
deriving DecidableEq, Repr

/-- Python `dict` lookup: first entry with the key. -/
def dictGet {V : Type} (d : List (String × V)) (k : String) : Option V :=
  match d with
  | [] => none
  | (k', v) :: t => if k' = k then some v else dictGet t k

/-- Python `dict` assignment `d[k] = v`: overwrite in place, else append. -/
def dictSet {V : Type} (d : List (String × V)) (k : String) (v : V) :
    List (String × V) :=
  match d with
  | [] => [(k, v)]
  | (k', v') :: t => if k' = k then (k', v) :: t else (k', v') :: dictSet t k v

/-- `isStartOf n h` = the list `n` is an initial run of `h`. -/
def isStartOf : List Char → List Char → Bool
  | [], _ => true
  | _ :: _, [] => false
  | a :: as, b :: bs => a = b && isStartOf as bs

/-- Substring containment on character lists (`needle in hay` for Python `str`). -/
def containsSub (needle : List Char) : List Char → Bool
  | [] => needle.isEmpty
  | c :: t => isStartOf needle (c :: t) || containsSub needle t

/-- Substring containment on `String` (Python's `in` operator). -/
def containsStr (hay needle : String) : Bool :=
  containsSub needle.toList hay.toList

/-- Split a character list at its first `'>'`: returns the content before it
and the remainder after it.  `none` when no `'>'` occurs. -/
def splitAtGt : List Char → Option (List Char × List Char)
  | [] => none
  | c :: t =>
    if c = '>' then some ([], t)
    else (splitAtGt t).map fun p => (c :: p.1, p.2)

/-- Split a character list at its first `':'`. -/
def splitAtColon : List Char → Option (List Char × List Char)
  | [] => none
  | c :: t =>
    if c = ':' then some ([], t)
    else (splitAtColon t).map fun p => (c :: p.1, p.2)

/-- One placeholder occurrence found by the scanner: the full matched text
(including the angle brackets), the optional type group, and the name group,
mirroring `match.group(0)`, `match.group(1)`, `match.group(2)`. -/
structure PMatch where
  full : List Char
  ptype : Option (List Char)
  name : List Char
deriving DecidableEq, Repr

/-- Given the (nonempty) text between `<` and the first following `>`, compute
the groups of `<(?:([^:>]+):)?([^>]+)>`: the optional group is taken exactly
when the content has a `':'` with nonempty text on both sides of the first one
(the Python engine's greedy-with-backtracking behaviour). -/
def mkPMatch (content : List Char) : PMatch :=
  match splitAtColon content with
  | some (a, b) =>
    if a ≠ [] ∧ b ≠ [] then ⟨'<' :: content ++ ['>'], some a, b⟩
    else ⟨'<' :: content ++ ['>'], none, content⟩
  | none => ⟨'<' :: content ++ ['>'], none, content⟩

/-- Fuelled scanner for placeholder occurrences, mirroring
`re.finditer(r'<(?:([^:>]+):)?([^>]+)>', pattern)`: at each `'<'` the match
extends to the first following `'>'` and succeeds iff the content between is
nonempty; scanning resumes after the `'>'` (non-overlapping), and a `'<'`
immediately followed by `'>'` matches nothing and is skipped. -/
def scanAux : Nat → List Char → List PMatch
  | 0, _ => []
  | _ + 1, [] => []
  | fuel + 1, c :: t =>
    if c = '<' then
      match splitAtGt t with
      | none => []
      | some (content, rest) =>
        if content = [] then scanAux fuel t
        else mkPMatch content :: scanAux fuel rest
    else scanAux fuel t

def scanPlaceholders (l : List Char) : List PMatch :=
  scanAux l.length l

/-- `str.replace(needle, repl, 1)`: replace the first occurrence. -/
def replaceFirst (needle repl : List Char) : List Char → List Char
  | [] => []
  | c :: t =>
    if isStartOf needle (c :: t) then repl ++ (c :: t).drop needle.length
    else c :: replaceFirst needle repl t

def lbr : Char := Char.ofNat 123
def rbr : Char := Char.ofNat 125

/-- The capture sub-pattern for `string` parameters: `([^/]+)`. -/
def strAtom : List Char := ['(', '[', '^', '/', ']', '+', ')']
/-- The capture sub-pattern for `int` parameters: `(\d+)`. -/
def intAtom : List Char := ['(', '\\', 'd', '+', ')']
/-- The capture sub-pattern for `float` parameters: `(\d+\.?\d*)`. -/
def floatAtom : List Char :=
  ['(', '\\', 'd', '+', '\\', '.', '?', '\\', 'd', '*', ')']
/-- The capture sub-pattern for `path` parameters: `(.+)`. -/
def pathAtom : List Char := ['(', '.', '+', ')']
/-- The character class `[0-9a-f]`. -/
def hexCls : List Char := ['[', '0', '-', '9', 'a', '-', 'f', ']']
/-- The capture sub-pattern for `uuid` parameters:
`([0-9a-f]{8}-[0-9a-f]{4}-[0-9a-f]{4}-[0-9a-f]{4}-[0-9a-f]{12})`. -/
def uuidAtom : List Char :=
  ['('] ++ hexCls ++ [lbr, '8', rbr, '-'] ++ hexCls ++ [lbr, '4', rbr, '-'] ++
    hexCls ++ [lbr, '4', rbr, '-'] ++ hexCls ++ [lbr, '4', rbr, '-'] ++
    hexCls ++ [lbr, '1', '2', rbr, ')']

/-- `type_patterns.get(param_type, r'([^/]+)')`. -/
def typeAtom (ty : String) : List Char :=
  if ty = "string" then strAtom
  else if ty = "int" then intAtom
  else if ty = "float" then floatAtom
  else if ty = "path" then pathAtom
  else if ty = "uuid" then uuidAtom
  else strAtom

/-- Compiled URL pattern: `URLPattern`'s fields after `_compile_pattern`. -/
structure URLPat where
  pattern : List Char
  regexPattern : List Char
  parameterNames : List (String × String)
deriving DecidableEq, Repr

/-- `param_type = match.group(1) or 'string'` (the group, when present, is
nonempty, so Python's `or` only replaces `None`). -/
def typeOfMatch (m : PMatch) : String :=
  (m.ptype.map fun l => String.mk l).getD "string"

/-- One iteration of the `_compile_pattern` loop: record the `(name, type)`
pair and replace the first occurrence of the matched text in the evolving
regex string by the type's capture sub-pattern. -/
def compileStep (acc : List Char × List (String × String)) (m : PMatch) :
    List Char × List (String × String) :=
  let ty := typeOfMatch m
  (replaceFirst m.full (typeAtom ty) acc.1,
    acc.2 ++ [(String.mk m.name, ty)])

/-- `URLPattern.__init__` / `_compile_pattern`: scan the template for
placeholders, substitute each one, and anchor the result with `^...$`. -/
def mkURLPattern (pattern : List Char) : URLPat :=
  let r := (scanPlaceholders pattern).foldl compileStep (pattern, [])
  { pattern := pattern
    regexPattern := '^' :: r.1 ++ ['$']
    parameterNames := r.2 }

/-! ### The matcher for generated regexes -/

/-- The capture types appearing in generated regexes: the five typed atoms
substituted by `_compile_pattern`, plus a capturing group of literal
characters — which Python's `re` creates whenever the template's literal
text itself contains a parenthesised group, shifting the group numbering. -/
inductive CapTy where
  | str | int | float | path | uuid
  | litSeq (cs : List Char)
deriving DecidableEq, Repr

/-- An element of a generated regex: a literal character, the `.` wildcard,
or one of the five capture atoms. -/
inductive Piece where
  | lit (c : Char)
  | dot
  | cap (ty : CapTy)
deriving DecidableEq, Repr

/-- Characters with special meaning in a Python regex. -/
def isRegexSpecial (c : Char) : Bool :=
  c = '.' || c = '^' || c = '$' || c = '*' || c = '+' || c = '?' ||
  c = lbr || c = rbr || c = '[' || c = ']' || c = '\\' || c = '|' ||
  c = '(' || c = ')'

/-- Recognise a parenthesised group of a generated regex as one of the five
capture atoms. -/
def groupToCap (g : List Char) : Option CapTy :=
  if g = strAtom then some .str
  else if g = intAtom then some .int
  else if g = floatAtom then some .float
  else if g = pathAtom then some .path
  else if g = uuidAtom then some .uuid
  else none

/-- Parse a generated regex body into pieces.  The first argument is the
reversed content of a currently open group, if any.  A parenthesised group is
one of the five capture atoms, or — when the template's literal text itself
contained a parenthesised run of ordinary characters — a capturing group of
literals (`CapTy.litSeq`), exactly as Python's `re` treats it.  Remaining
regex constructs (quantifiers, classes, etc. arising from other
metacharacters in literal template text; `.` is modelled, as templates with
a literal dot need it) yield `none`: such regexes are outside the model's
domain and no theorem below relies on their behaviour. -/
def parseRegexAux : Option (List Char) → List Char → Option (List Piece)
  | none, [] => some []
  | some _, [] => none
  | none, c :: rest =>
    if c = '(' then parseRegexAux (some []) rest
    else if c = '.' then (parseRegexAux none rest).map (Piece.dot :: ·)
    else if isRegexSpecial c then none
    else (parseRegexAux none rest).map (Piece.lit c :: ·)
  | some acc, c :: rest =>
    if c = ')' then
      match groupToCap ('(' :: (acc.reverse ++ [')'])) with
      | some ty => (parseRegexAux none rest).map (Piece.cap ty :: ·)
      | none =>
        if acc.all (fun ch => !isRegexSpecial ch) then
          (parseRegexAux none rest).map
            (Piece.cap (CapTy.litSeq acc.reverse) :: ·)
        else none
    else if c = '(' then none
    else parseRegexAux (some (c :: acc)) rest

/-- Strip the `^`/`$` anchors that `_compile_pattern` wraps around the body. -/
def stripAnchors : List Char → Option (List Char)
  | [] => none
  | c :: body =>
    if c = '^' then
      if body.getLast? = some '$' then some body.dropLast else none
    else none

/-- The nonempty initial runs of `r`, longest first — the order in which a
greedy `+`-quantified class tries its candidates. -/
def descInitRuns (r : List Char) : List (List Char) :=
  (List.range r.length).map fun i => r.take (r.length - i)

def isHexLower (c : Char) : Bool :=
  c.isDigit || ('a' ≤ c && c ≤ 'f')

/-- The canonical 8-4-4-4-12 lowercase-hex UUID shape. -/
def uuidShape (l : List Char) : Bool :=
  l.length = 36 &&
    (List.range 36).all fun i =>
      match l.get? i with
      | none => false
      | some c =>
        if i = 8 || i = 13 || i = 18 || i = 23 then c = '-' else isHexLower c

/-- The candidate texts for a `float` capture `\d+\.?\d*`, in the backtracking
order of the Python engine: the `\d+` run longest first, the optional dot
preferred, the trailing `\d*` run longest first. -/
def floatCands (ds : List Char) : List (List Char) :=
  let d1 := ds.takeWhile Char.isDigit
  ((descInitRuns d1).map fun base =>
    let rest := ds.drop base.length
    let withDot :=
      match rest with
      | '.' :: r2 =>
        let d2 := r2.takeWhile Char.isDigit
        (List.range (d2.length + 1)).map fun i =>
          base ++ '.' :: d2.take (d2.length - i)
      | _ => []
    let noDot :=
      let d2 := rest.takeWhile Char.isDigit
      (List.range (d2.length + 1)).map fun i => base ++ d2.take (d2.length - i)
    withDot ++ noDot).foldr (· ++ ·) []

/-- The candidate texts a capture atom tries on input `ds`, in the Python
engine's backtracking order (greedy: longest first; a literal group is
deterministic: it matches exactly its own text). -/
def capCands : CapTy → List Char → List (List Char)
  | .str, ds => descInitRuns (ds.takeWhile (· ≠ '/'))
  | .int, ds => descInitRuns (ds.takeWhile Char.isDigit)
  | .float, ds => floatCands ds
  | .path, ds => descInitRuns (ds.takeWhile (· ≠ '\n'))
  | .uuid, ds => if uuidShape (ds.take 36) then [ds.take 36] else []
  | .litSeq cs, ds => if isStartOf cs ds then [cs] else []

/-- First success of `f` over a list, in order. -/
def firstSome {α β : Type} (f : α → Option β) : List α → Option β
  | [] => none
  | a :: t =>
    match f a with
    | some b => some b
    | none => firstSome f t

/-- Fuelled backtracking matcher for a piece sequence against an input,
returning the ordered capture texts of the first (leftmost-greedy) full
match.  With fuel ≥ number of pieces this is total backtracking search. -/
def matchAux : Nat → List Piece → List Char → Option (List (List Char))
  | _, [], [] => some []
  | _, [], _ :: _ => none
  | 0, _ :: _, _ => none
  | fuel + 1, Piece.lit c :: ps, ds =>
    match ds with
    | [] => none
    | d :: ds' => if d = c then matchAux fuel ps ds' else none
  | fuel + 1, Piece.dot :: ps, ds =>
    match ds with
    | [] => none
    | d :: ds' => if d = '\n' then none else matchAux fuel ps ds'
  | fuel + 1, Piece.cap ty :: ps, ds =>
    firstSome
      (fun cand => (matchAux fuel ps (ds.drop cand.length)).map (cand :: ·))
      (capCands ty ds)

def matchPieces (ps : List Piece) (ds : List Char) :
    Option (List (List Char)) :=
  matchAux ps.length ps ds

/-- Python `int()` on a string: surrounding whitespace, an optional sign, then
one or more digits (Python's underscore grouping and non-ASCII digits are not
modelled; no claim depends on them). -/
def isPySpace (c : Char) : Bool :=
  c = ' ' || c = '\t' || c = '\n' || c = '\r' ||
  c = Char.ofNat 11 || c = Char.ofNat 12

def digitsVal (l : List Char) : Nat :=
  l.foldl (fun a c => a * 10 + (c.toNat - 48)) 0

def pyIntStr (s : String) : Option Int :=
  let l := s.toList.dropWhile isPySpace
  let l := (l.reverse.dropWhile isPySpace).reverse
  match l with
  | [] => none
  | c :: ds =>
    if c = '+' then
      if ds ≠ [] ∧ ds.all Char.isDigit then some (Int.ofNat (digitsVal ds))
      else none
    else if c = '-' then
      if ds ≠ [] ∧ ds.all Char.isDigit then some (-Int.ofNat (digitsVal ds))
      else none
    else if (c :: ds).all Char.isDigit then
      some (Int.ofNat (digitsVal (c :: ds)))
    else none

/-- The typed conversion of one captured group (`int(...)` / `float(...)` /
identity).  `none` models the `ValueError` caught by `URLPattern.match`, which
turns the whole match into "no match".  `float` conversion is kept symbolic
(it cannot fail on texts matched by `\d+\.?\d*`). -/
def convertParam (ty : String) (raw : List Char) : Option PyVal :=
  if ty = "int" then (pyIntStr (String.mk raw)).map PyVal.int
  else if ty = "float" then some (PyVal.float (String.mk raw))
  else some (PyVal.str (String.mk raw))

/-- The parameter-building loop of `URLPattern.match`: pair the i-th
`(name, type)` with capture group i+1, convert, and insert into the result
dict.  A missing group (an `IndexError` in Python, only reachable for
pathological templates) is modelled as match failure. -/
def buildParamsAux : List (String × String) → List (List Char) →
    List (String × PyVal) → Option (List (String × PyVal))
  | [], _, acc => some acc
  | _ :: _, [], _ => none
  | (nm, ty) :: names, c :: caps, acc =>
    match convertParam ty c with
    | none => none
    | some v => buildParamsAux names caps (dictSet acc nm v)

def buildParams (names : List (String × String)) (caps : List (List Char)) :
    Option (List (String × PyVal)) :=
  buildParamsAux names caps []

/-- `URLPattern.match`: run the anchored regex and convert the captures.
The dead `if not self.regex_pattern` branch of the source is kept (the
compiled regex string is never empty).  Python's `$` also matches just before
a single trailing newline, so a failed exact match is retried without one. -/
def urlPatternMatch (p : URLPat) (url : List Char) :
    Option (List (String × PyVal)) :=
  if p.regexPattern = [] then
    if url = p.pattern then some [] else none
  else
    match stripAnchors p.regexPattern with
    | none => none
    | some core =>
      match parseRegexAux none core with
      | none => none
      | some pieces =>
        let caps :=
          match matchPieces pieces url with
          | some cs => some cs
          | none =>
            if url.getLast? = some '\n' then matchPieces pieces url.dropLast
            else none
        match caps with
        | none => none
        | some cs => buildParams p.parameterNames cs

/-! ### RouteManager -/

/-- One static-route table entry: handler plus middleware chain.  Handlers
and middlewares are abstract (types `H` and `M`). -/
structure StaticEntry (H M : Type) where
  handler : H
  middlewares : List M
deriving DecidableEq, Repr

/-- One entry of `self.dynamic_routes`. -/
structure DynRoute (H M : Type) where
  pattern : URLPat
  originalPattern : List Char
  method : String
  handler : H
  middlewares : List M
deriving DecidableEq, Repr

/-- `RouteManager`'s state: the exact-match index (a dict of dicts) and the
ordered pattern-route list. -/
structure RouteManagerS (H M : Type) where
  staticRoutes : List (String × List (String × StaticEntry H M))
  dynamicRoutes : List (DynRoute H M)
deriving DecidableEq, Repr

def emptyRM {H M : Type} : RouteManagerS H M := ⟨[], []⟩

/-- `RouteManager.add_route`: patterns containing both `'<'` and `'>'` are
compiled and appended to the pattern-route list; everything else goes into the
exact-match index, overwriting any prior entry for the same (path, method). -/
def addRoute {H M : Type} (rm : RouteManagerS H M) (pattern : String)
    (method : String) (handler : H) (middlewares : List M) :
    RouteManagerS H M :=
  if pattern.toList.any (· = '<') && pattern.toList.any (· = '>') then
    { rm with
      dynamicRoutes := rm.dynamicRoutes ++
        [⟨mkURLPattern pattern.toList, pattern.toList, method, handler,
          middlewares⟩] }
  else
    let inner := (dictGet rm.staticRoutes pattern).getD []
    { rm with
      staticRoutes :=
        dictSet rm.staticRoutes pattern
          (dictSet inner method ⟨handler, middlewares⟩) }

/-- The scan over `self.dynamic_routes` in `find_route`: registration order,
skipping entries whose method differs, first successful matcher wins. -/
def scanDynamic {H M : Type} (routes : List (DynRoute H M)) (path : List Char)
    (method : String) : Option H × List (String × PyVal) × List M :=
  match routes with
  | [] => (none, [], [])
  | r :: t =>
    if r.method = method then
      match urlPatternMatch r.pattern path with
      | some params => (some r.handler, params, r.middlewares)
      | none => scanDynamic t path method
    else scanDynamic t path method

/-- The static lookup `path in self.static_routes and method in
self.static_routes[path]`. -/
def staticLookup {H M : Type} (rm : RouteManagerS H M) (path method : String) :
    Option (StaticEntry H M) :=
  match dictGet rm.staticRoutes path with
  | none => none
  | some inner => dictGet inner method

/-- `RouteManager.find_route`. -/
def findRoute {H M : Type} (rm : RouteManagerS H M) (path method : String) :
    Option H × List (String × PyVal) × List M :=
  match staticLookup rm path method with
  | some e => (some e.handler, [], e.middlewares)
  | none => scanDynamic rm.dynamicRoutes path.toList method

/-- A route registration, for stating properties about registration
sequences. -/
structure Reg (H M : Type) where
  pattern : String
  method : String
  handler : H
  middlewares : List M

def applyRegs {H M : Type} (rm : RouteManagerS H M) (regs : List (Reg H M)) :
    RouteManagerS H M :=
  regs.foldl (fun s r => addRoute s r.pattern r.method r.handler r.middlewares)
    rm

/-! ### Response framing (`SocketHTTPServer`) -/

/-- Python `str.lower()` restricted to ASCII (header names in the framing
logic are compared after lowering; no claim involves non-ASCII header
names). -/
def pyLowerChar (c : Char) : Char :=
  if 'A' ≤ c ∧ c ≤ 'Z' then Char.ofNat (c.toNat + 32) else c

def pyLower (s : String) : String :=
  String.mk (s.toList.map pyLowerChar)

/-- UTF-8 encoding of one code point (`str.encode('utf-8')`). -/
def utf8EncodeChar (n : Nat) : List Nat :=
  if n < 128 then [n]
  else if n < 2048 then [192 + n / 64, 128 + n % 64]
  else if n < 65536 then [224 + n / 4096, 128 + n / 64 % 64, 128 + n % 64]
  else [240 + n / 262144, 128 + n / 4096 % 64, 128 + n / 64 % 64, 128 + n % 64]

def concatAll {α : Type} : List (List α) → List α
  | [] => []
  | x :: t => x ++ concatAll t

def utf8Encode (s : String) : List Nat :=
  concatAll (s.toList.map fun c => utf8EncodeChar c.toNat)

/-- `'\r\n'.join(...)`. -/
def joinCRLF : List String → String
  | [] => ""
  | [s] => s
  | s :: t => s ++ "\r\n" ++ joinCRLF t

def headerLine (h : String × String) : String := h.1 ++ ": " ++ h.2

/-- The `response_lines` list built by `build_http_response`: status line,
the supplied headers in order, a computed `Content-Length` unless one was
supplied (case-insensitively), and `Connection: close`. -/
def buildResponseLines (status : String) (headers : List (String × String))
    (body : List Nat) : List String :=
  let ls := ["HTTP/1.1 " ++ status]
  let ls := headers.foldl (fun acc h => acc ++ [headerLine h]) ls
  let hasCL := headers.any fun h => pyLower h.1 = "content-length"
  let ls := if hasCL then ls
    else ls ++ ["Content-Length: " ++ toString body.length]
  ls ++ ["Connection: close"]

/-- `SocketHTTPServer.build_http_response`: the encoded header block, a blank
line, then the body bytes verbatim. -/
def buildHttpResponse (status : String) (headers : List (String × String))
    (body : List Nat) : List Nat :=
  utf8Encode (joinCRLF (buildResponseLines status headers body) ++ "\r\n\r\n")
    ++ body

/-- The `status_messages` dict of `create_error_response` (default
`"Error"`). -/
def statusMessage (code : Nat) : String :=
  if code = 400 then "Bad Request"
  else if code = 404 then "Not Found"
  else if code = 500 then "Internal Server Error"
  else "Error"

/-- The HTML body built by `create_error_response`. -/
def errorBody (code : Nat) (message : String) : String :=
  "<h1>" ++ toString code ++ " " ++ statusMessage code ++ "</h1><p>" ++
    message ++ "</p>"

/-- `SocketHTTPServer.create_error_response`. -/
def createErrorResponse (code : Nat) (message : String) : List Nat :=
  let body := utf8Encode (errorBody code message)
  utf8Encode ("HTTP/1.1 " ++ toString code ++ " " ++ statusMessage code ++
      "\r\nContent-Type: text/html\r\nContent-Length: " ++
      toString body.length ++ "\r\nConnection: close\r\n\r\n") ++ body

/-! ### Request construction (`src/request.py`) -/

/-- Strict UTF-8 decoding (`bytes.decode('utf-8')`): rejects invalid lead or
continuation bytes, overlong encodings, surrogates, and code points beyond
U+10FFFF, exactly as Python's strict error handler does. -/
def utf8DecodeList : List Nat → Option (List Char)
  | [] => some []
  | b :: t =>
    if b < 128 then (utf8DecodeList t).map (Char.ofNat b :: ·)
    else if b < 194 then none
    else if b < 224 then
      match t with
      | b1 :: t1 =>
        if 128 ≤ b1 ∧ b1 < 192 then
          (utf8DecodeList t1).map (Char.ofNat ((b - 192) * 64 + (b1 - 128)) :: ·)
        else none
      | [] => none
    else if b < 240 then
      match t with
      | b1 :: b2 :: t2 =>
        let cp := (b - 224) * 4096 + (b1 - 128) * 64 + (b2 - 128)
        if (128 ≤ b1 ∧ b1 < 192) ∧ (128 ≤ b2 ∧ b2 < 192) ∧ 2048 ≤ cp ∧
            ¬(55296 ≤ cp ∧ cp ≤ 57343) then
          (utf8DecodeList t2).map (Char.ofNat cp :: ·)
        else none
      | _ => none
    else if b < 245 then
      match t with
      | b1 :: b2 :: b3 :: t3 =>
        let cp := (b - 240) * 262144 + (b1 - 128) * 4096 + (b2 - 128) * 64 +
          (b3 - 128)
        if (128 ≤ b1 ∧ b1 < 192) ∧ (128 ≤ b2 ∧ b2 < 192) ∧
            (128 ≤ b3 ∧ b3 < 192) ∧ 65536 ≤ cp ∧ cp ≤ 1114111 then
          (utf8DecodeList t3).map (Char.ofNat cp :: ·)
        else none
      | _ => none
    else none

def utf8Decode (l : List Nat) : Option String :=
  (utf8DecodeList l).map fun cs => String.mk cs

/-- The WSGI environ keys `Request.__init__` consults, as a record (the WSGI
layer always supplies them). -/
structure Environ where
  requestMethod : String
  pathInfo : String
  queryString : String
  contentType : String
  contentLength : String
  inputBytes : List Nat
deriving DecidableEq, Repr

/-- A form field value: `val[0] if len(val) == 1 else val`. -/
inductive FormVal where
  | one (s : String)
  | many (vs : List String)
deriving DecidableEq, Repr

/-- `self.body` after `Request.__init__`: the initial empty dict, a parsed
form mapping, or a parsed JSON value (of abstract type `J`, produced by the
external `json.loads`). -/
inductive PyBody (J : Type) where
  | empty
  | form (fields : List (String × FormVal))
  | json (v : J)
deriving DecidableEq, Repr

/-- The request context fields the framework reads. -/
structure RequestS (J : Type) where
  method : String
  pathInfo : String
  queryParams : List (String × String)
  body : PyBody J
  bodyRaw : Option (List Nat)
deriving DecidableEq, Repr

/-- `Request.__init__` (src/request.py).  The external collaborators —
`json.loads`, `urllib.parse.parse_qs`, `urllib.parse.parse_qsl` — are
parameters (a `none` from `jsonLoads` models `json.JSONDecodeError`).
Exceptions that the constructor does not catch (a malformed
`Content-Length`, or body bytes that are not valid UTF-8 in the form/JSON
branches) are modelled as `Except.error`. -/
def requestInit {J : Type} (jsonLoads : String → Option J)
    (parseQs : String → List (String × List String))
    (parseQsl : String → List (String × String))
    (env : Environ) : Except String (RequestS J) :=
  let queryParams :=
    if env.queryString ≠ "" then
      (parseQsl env.queryString).foldl (fun d kv => dictSet d kv.1 kv.2) []
    else []
  let base : RequestS J :=
    { method := env.requestMethod
      pathInfo := env.pathInfo
      queryParams := queryParams
      body := .empty
      bodyRaw := none }
  if env.contentLength ≠ "" then
    match pyIntStr env.contentLength with
    | none => .error "ValueError: invalid Content-Length"
    | some n =>
      if 0 < n then
        let requestBody := env.inputBytes.take n.toNat
        if containsStr env.contentType "application/x-www-form-urlencoded" then
          match utf8Decode requestBody with
          | none => .error "UnicodeDecodeError"
          | some s =>
            let fields := (parseQs s).map fun kv =>
              (kv.1, match kv.2 with
                     | [v] => FormVal.one v
                     | vs => FormVal.many vs)
            .ok { base with body := .form fields }
        else if containsStr env.contentType "application/json" then
          match utf8Decode requestBody with
          | none => .error "UnicodeDecodeError"
          | some s =>
            match jsonLoads s with
            | some v => .ok { base with body := .json v }
            | none => .ok { base with body := .empty }
        else .ok { base with bodyRaw := some requestBody }
      else .ok base
  else .ok base

/-! ### Response context (`src/response.py`) and the WSGI application -/

/-- The response context fields the framework serialises. -/
structure ResponseS where
  statusCode : String
  text : String
  headers : List (String × String)
deriving DecidableEq, Repr

/-- `Response.__init__` with no explicit arguments — the value every matched
handler receives. -/
def responseInit : ResponseS :=
  { statusCode := "404 Not Found"
    text := "Route not Found"
    headers := [("Content-Type", "text/plain")] }

/-- What `start_response` receives plus the returned body chunks (already
bytes: `Response.as_wsgi` returns `[self.text.encode()]`). -/
structure WsgiOut where
  status : String
  headers : List (String × String)
  chunks : List (List Nat)
deriving DecidableEq, Repr

/-- `Response.as_wsgi`: restore the default header list if it was emptied,
report status and headers, return the encoded body. -/
def asWsgi (r : ResponseS) : WsgiOut :=
  let headers :=
    if r.headers = [] then [("Content-Type", "text/plain")] else r.headers
  ⟨r.statusCode, headers, [utf8Encode r.text]⟩

def applyFns {α : Type} (fs : List (α → α)) (a : α) : α :=
  fs.foldl (fun x f => f x) a

/-- `live_rocket.__call__` (the WSGI application).  Global middlewares are
request transformers run in order; route middlewares are interpreted by
`runRouteMw`; the handler body is interpreted by `runHandler`, which returns
the mutated response context or raises (`Except.error`).  The `isinstance`
checks on middlewares are not modelled (middlewares are functions by type). -/
def liveRocketCall {H M J : Type} (rm : RouteManagerS H M)
    (globalMws : List (RequestS J → RequestS J))
    (runRouteMw : M → RequestS J → RequestS J)
    (runHandler : H → RequestS J → ResponseS → List (String × PyVal) →
      Except String ResponseS)
    (jsonLoads : String → Option J)
    (parseQs : String → List (String × List String))
    (parseQsl : String → List (String × String))
    (env : Environ) : Except String WsgiOut :=
  match requestInit jsonLoads parseQs parseQsl env with
  | .error e => .error e
  | .ok request0 =>
    let request := applyFns globalMws request0
    match findRoute rm request.pathInfo request.method with
    | (some h, params, routeMws) =>
      let request := routeMws.foldl (fun r m => runRouteMw m r) request
      match runHandler h request responseInit params with
      | .error e => .error e
      | .ok response => .ok (asWsgi response)
    | (none, _, _) =>
      .ok (asWsgi ⟨"404 Not Found", "Route not found",
        [("Content-Type", "text/plain")]⟩)

/-- `SocketHTTPServer.handle_wsgi_request`: run the WSGI app, frame its
output; any exception becomes a 500 with the message embedded. -/
def handleWsgiRequest (app : Environ → Except String WsgiOut)
    (env : Environ) : List Nat :=
  match app env with
  | .ok w => buildHttpResponse w.status w.headers (concatAll w.chunks)
  | .error e => createErrorResponse 500 ("Internal Server Error: " ++ e)

/-- The observable outcome of one connection: the byte strings sent, and
whether the socket was closed. -/
structure ConnOutcome where
  sent : List (List Nat)
  closed : Bool
deriving DecidableEq, Repr

/-- `SocketHTTPServer.handle_request`: read (`none` models empty request
data), parse (`parseReq` models `parse_http_request`; its exceptions reach
the outer handler), dispatch, send; the `finally` always closes the
connection. -/
def handleRequest (recvData : Option String)
    (parseReq : String → Except String Environ)
    (app : Environ → Except String WsgiOut) : ConnOutcome :=
  match recvData with
  | none => ⟨[], true⟩
  | some data =>
    match parseReq data with
    | .error e => ⟨[createErrorResponse 500 e], true⟩
    | .ok env => ⟨[handleWsgiRequest app env], true⟩

/-! ### Basic lemmas -/

theorem dictGet_dictSet_self {V : Type} (d : List (String × V)) (k : String)
    (v : V) : dictGet (dictSet d k v) k = some v := by
  induction d with
  | nil => simp [dictGet, dictSet]
  | cons hd t ih =>
    obtain ⟨k', v'⟩ := hd
    by_cases hk : k' = k
    · simp [dictGet, dictSet, hk]
    · simp [dictGet, dictSet, hk, ih]

theorem foldl_append_one {α β : Type} (f : α → β) (l : List α)
    (init : List β) :
    l.foldl (fun acc h => acc ++ [f h]) init = init ++ l.map f := by
  induction l generalizing init with
  | nil => simp
  | cons a t ih => simp [List.foldl_cons, ih]

/-! ### C4: response framing -/

/-- **C4.** For every status string, ordered header list and body, the
response-line list starts with `HTTP/1.1 <status>`, continues with each
supplied header as a `Name: Value` line in order, appends
`Content-Length: <byte length of body>` exactly when no supplied header is
named `Content-Length` under case-insensitive comparison, always appends
`Connection: close`, and the full response is the CRLF-joined header block,
a blank line, then the body bytes verbatim. -/
theorem claim_C4 (status : String) (headers : List (String × String))
    (body : List Nat) :
    buildResponseLines status headers body =
      ["HTTP/1.1 " ++ status] ++ headers.map headerLine ++
        (if headers.any (fun h => pyLower h.1 = pyLower "Content-Length")
         then []
         else ["Content-Length: " ++ toString body.length]) ++
        ["Connection: close"] ∧
    buildHttpResponse status headers body =
      utf8Encode
          (joinCRLF (buildResponseLines status headers body) ++ "\r\n\r\n") ++
        body := by
  constructor
  · have hcl : pyLower "Content-Length" = "content-length" := rfl
    simp only [buildResponseLines, foldl_append_one, hcl]
    by_cases h :
        (headers.any fun h => pyLower h.1 = "content-length") = true
    · simp [h]
    · simp [h]
  · rfl

/-! ### C1: exact-route lookup beats pattern routes -/

theorem addRoute_static_staticLookup {H M : Type} (rm : RouteManagerS H M)
    (p m : String) (h : H) (mws : List M)
    (hp : (p.toList.any (· = '<') && p.toList.any (· = '>')) = false) :
    staticLookup (addRoute rm p m h mws) p m = some ⟨h, mws⟩ := by
  unfold addRoute
  rw [hp]
  simp only [Bool.false_eq_true, if_false, staticLookup, dictGet_dictSet_self]

theorem applyRegs_dynamic_staticRoutes {H M : Type} (rm : RouteManagerS H M)
    (regs : List (Reg H M))
    (hregs : ∀ r ∈ regs,
      (r.pattern.toList.any (· = '<') && r.pattern.toList.any (· = '>')) =
        true) :
    (applyRegs rm regs).staticRoutes = rm.staticRoutes := by
  induction regs generalizing rm with
  | nil => rfl
  | cons r t ih =>
    have hr := hregs r (by simp)
    have ht : ∀ q ∈ t, (q.pattern.toList.any (· = '<') &&
        q.pattern.toList.any (· = '>')) = true := by
      intro q hq; exact hregs q (by simp [hq])
    show (applyRegs (addRoute rm r.pattern r.method r.handler r.middlewares) t).staticRoutes = _
    rw [ih _ ht]
    unfold addRoute
    rw [hr]
    simp

theorem findRoute_of_staticLookup {H M : Type} (rm : RouteManagerS H M)
    (p m : String) (e : StaticEntry H M)
    (he : staticLookup rm p m = some e) :
    findRoute rm p m = (some e.handler, [], e.middlewares) := by
  unfold findRoute
  rw [he]

/-- **C1.** A route registered with a placeholder-free path (one the code
classifies as static: it does not contain both `<` and `>`) under method `m`
is found by `find_route(path, m)` with that route's handler, an empty
parameter mapping, and that route's middlewares, no matter which pattern
routes were registered before it (in `rm`) or after it (in `regs`), and
whether any of them would match the same path. -/
theorem claim_C1 {H M : Type} (rm : RouteManagerS H M) (p m : String) (h : H)
    (mws : List M) (regs : List (Reg H M))
    (hp : (p.toList.any (· = '<') && p.toList.any (· = '>')) = false)
    (hregs : ∀ r ∈ regs,
      (r.pattern.toList.any (· = '<') && r.pattern.toList.any (· = '>')) =
        true) :
    findRoute (applyRegs (addRoute rm p m h mws) regs) p m =
      (some h, [], mws) := by
  have hstat := applyRegs_dynamic_staticRoutes (addRoute rm p m h mws) regs hregs
  have hlk : staticLookup (applyRegs (addRoute rm p m h mws) regs) p m =
      some ⟨h, mws⟩ := by
    unfold staticLookup
    rw [hstat]
    have := addRoute_static_staticLookup rm p m h mws hp
    unfold staticLookup at this
    exact this
  exact findRoute_of_staticLookup _ _ _ _ hlk

/-- Witness for C1: the exact route `/x` wins over an earlier-registered and a
later-registered pattern route that both match `/x`. -/
theorem claim_C1_witness :
    ((("/x").toList.any (· = '<') && ("/x").toList.any (· = '>')) = false) ∧
    findRoute
      (applyRegs
        (addRoute
          ({ staticRoutes := [],
             dynamicRoutes :=
               [⟨mkURLPattern "/<path:q>".toList, "/<path:q>".toList, "GET",
                 9, []⟩] } : RouteManagerS Nat Nat)
          "/x" "GET" 3 [])
        ([⟨"/<path:p>", "GET", 8, []⟩] : List (Reg Nat Nat))) "/x" "GET" =
      (some 3, [], []) := by
  refine ⟨by decide, claim_C1 _ "/x" "GET" 3 [] _ (by decide) ?_⟩
  intro r hr
  simp only [List.mem_singleton] at hr
  subst hr
  decide

/-! ### C2: pattern scan in registration order -/

theorem findRoute_eq_scan {H M : Type} (rm : RouteManagerS H M)
    (path method : String) (hstatic : staticLookup rm path method = none) :
    findRoute rm path method =
      scanDynamic rm.dynamicRoutes path.toList method := by
  unfold findRoute
  rw [hstatic]

/-- **C2.** When no static route matches, `find_route` scans pattern routes
in registration order, skips entries whose method differs, and returns the
handler, parameters and middleware list of the first remaining entry whose
matcher succeeds — regardless of the later-registered routes `post`. -/
theorem claim_C2 {H M : Type} (rm : RouteManagerS H M) (path method : String)
    (pre post : List (DynRoute H M)) (r : DynRoute H M)
    (ps : List (String × PyVal))
    (hstatic : staticLookup rm path method = none)
    (hdyn : rm.dynamicRoutes = pre ++ r :: post)
    (hpre : ∀ q ∈ pre, q.method = method →
      urlPatternMatch q.pattern path.toList = none)
    (hm : r.method = method)
    (hmatch : urlPatternMatch r.pattern path.toList = some ps) :
    findRoute rm path method = (some r.handler, ps, r.middlewares) := by
  rw [findRoute_eq_scan rm path method hstatic, hdyn]
  clear hdyn hstatic
  induction pre with
  | nil =>
    simp only [List.nil_append, scanDynamic, hm, if_true, hmatch]
  | cons q t ih =>
    have hq := hpre q (by simp)
    have ht : ∀ q' ∈ t, q'.method = method →
        urlPatternMatch q'.pattern path.toList = none := by
      intro q' hq' hmeth; exact hpre q' (by simp [hq']) hmeth
    show scanDynamic (q :: (t ++ r :: post)) path.toList method = _
    by_cases hqm : q.method = method
    · simp only [scanDynamic, hqm, if_true, hq hqm]
      exact ih ht
    · simp only [scanDynamic, hqm, if_false]
      exact ih ht

/-- Witness for C2: the first-registered matching pattern route wins over a
later one that also matches, and a method-mismatched and a non-matching
entry before it are skipped. -/
theorem claim_C2_witness :
    findRoute
      (⟨[],
        [⟨mkURLPattern "/<p>".toList, "/<p>".toList, "POST", 1, []⟩,
         ⟨mkURLPattern "/x/<int:a>".toList, "/x/<int:a>".toList, "GET", 2, []⟩,
         ⟨mkURLPattern "/<a>".toList, "/<a>".toList, "GET", 3, [5]⟩,
         ⟨mkURLPattern "/<b>".toList, "/<b>".toList, "GET", 4, []⟩]⟩ :
        RouteManagerS Nat Nat) "/hello" "GET" =
      (some 3, [("a", PyVal.str "hello")], [5]) := by
  refine claim_C2 _ "/hello" "GET"
    [⟨mkURLPattern "/<p>".toList, "/<p>".toList, "POST", 1, []⟩,
     ⟨mkURLPattern "/x/<int:a>".toList, "/x/<int:a>".toList, "GET", 2, []⟩]
    [⟨mkURLPattern "/<b>".toList, "/<b>".toList, "GET", 4, []⟩]
    ⟨mkURLPattern "/<a>".toList, "/<a>".toList, "GET", 3, [5]⟩
    [("a", PyVal.str "hello")] (by decide) rfl ?_ (by decide) (by decide)
  intro q hq hmeth
  fin_cases hq
  · exact absurd hmeth (by decide)
  · decide

/-! ### C3: the `/users/<int:id>` example -/

/-- **C3.** With `/users/<int:id>` registered under GET, resolving
`/users/42` yields the handler with `{id: 42}` where 42 is integer-typed,
and resolving `/users/abc` reports not-found. -/
theorem claim_C3 :
    findRoute (addRoute (emptyRM (H := Nat) (M := Nat)) "/users/<int:id>"
        "GET" 7 []) "/users/42" "GET" =
      (some 7, [("id", PyVal.int 42)], []) ∧
    findRoute (addRoute (emptyRM (H := Nat) (M := Nat)) "/users/<int:id>"
        "GET" 7 []) "/users/abc" "GET" =
      (none, [], []) := by
  constructor <;> decide

/-! ### C9: the default response context -/

/-- **C9.** A response context constructed with no explicit status or text —
what every matched handler receives — carries status `404 Not Found`, body
text `Route not Found` and the single `Content-Type: text/plain` header;
consequently a matched handler that returns its response context unmutated
produces exactly that response. -/
theorem claim_C9 {H M J : Type} (rm : RouteManagerS H M)
    (globalMws : List (RequestS J → RequestS J))
    (runRouteMw : M → RequestS J → RequestS J)
    (runHandler : H → RequestS J → ResponseS → List (String × PyVal) →
      Except String ResponseS)
    (jsonLoads : String → Option J)
    (parseQs : String → List (String × List String))
    (parseQsl : String → List (String × String))
    (env : Environ) (req0 : RequestS J) (h : H)
    (params : List (String × PyVal)) (routeMws : List M)
    (hreq : requestInit jsonLoads parseQs parseQsl env = .ok req0)
    (hfind : findRoute rm (applyFns globalMws req0).pathInfo
      (applyFns globalMws req0).method = (some h, params, routeMws))
    (hid : runHandler h
      (routeMws.foldl (fun r m => runRouteMw m r) (applyFns globalMws req0))
      responseInit params = .ok responseInit) :
    responseInit =
      ⟨"404 Not Found", "Route not Found", [("Content-Type", "text/plain")]⟩ ∧
    liveRocketCall rm globalMws runRouteMw runHandler jsonLoads parseQs
        parseQsl env =
      .ok ⟨"404 Not Found", [("Content-Type", "text/plain")],
        [utf8Encode "Route not Found"]⟩ := by
  refine ⟨rfl, ?_⟩
  unfold liveRocketCall
  rw [hreq]
  simp only [hfind, hid]
  rfl

/-- Witness for C9: a concrete static route whose handler leaves the response
context untouched yields the 404 defaults. -/
theorem claim_C9_witness :
    liveRocketCall (addRoute (emptyRM (H := Nat) (M := Nat)) "/h" "GET" 5 [])
        [] (fun _ r => r) (fun _ _ r _ => .ok r) (J := Unit) (fun _ => none)
        (fun _ => []) (fun _ => []) ⟨"GET", "/h", "", "", "", []⟩ =
      .ok ⟨"404 Not Found", [("Content-Type", "text/plain")],
        [utf8Encode "Route not Found"]⟩ :=
  (claim_C9 (addRoute (emptyRM (H := Nat) (M := Nat)) "/h" "GET" 5 []) []
    (fun _ r => r) (fun _ _ r _ => .ok r) (fun _ => none) (fun _ => [])
    (fun _ => []) ⟨"GET", "/h", "", "", "", []⟩
    ⟨"GET", "/h", [], .empty, none⟩ 5 [] [] rfl (by decide) rfl).2

/-! ### C6: a raising handler yields a framed 500 response -/

theorem isStartOf_append_self (n b : List Char) :
    isStartOf n (n ++ b) = true := by
  induction n with
  | nil => rfl
  | cons c t ih => simp [isStartOf, ih]

theorem containsSub_mid (a n b : List Char) :
    containsSub n (a ++ (n ++ b)) = true := by
  induction a with
  | nil =>
    match n with
    | [] =>
      match b with
      | [] => rfl
      | c :: t => simp [containsSub, isStartOf]
    | c :: t =>
      simp only [containsSub, Bool.or_eq_true]
      exact Or.inl (isStartOf_append_self (c :: t) b)
  | cons c a' ih => simp [containsSub, ih]

theorem strToList_append (a b : String) :
    (a ++ b).toList = a.toList ++ b.toList :=
  String.data_append a b

theorem errorBody_contains (code : Nat) (pre e : String) :
    containsStr (errorBody code (pre ++ e)) e = true := by
  unfold containsStr errorBody
  rw [show "<h1>" ++ toString code ++ " " ++ statusMessage code ++
      "</h1><p>" ++ (pre ++ e) ++ "</p>" =
      ("<h1>" ++ toString code ++ " " ++ statusMessage code ++ "</h1><p>" ++
        pre) ++ (e ++ "</p>") by
    simp [String.append_assoc]]
  rw [strToList_append, strToList_append]
  exact containsSub_mid _ _ _

/-- **C6.** If the resolved handler raises during execution, the exception
propagates out of the WSGI application but is caught by
`handle_wsgi_request`, which still produces a complete, well-framed HTTP
response: status line `HTTP/1.1 500 Internal Server Error`, a correct
`Content-Length`, `Connection: close`, a blank line, and a body containing
the exception's message; the connection worker sends exactly that response
and always closes the connection. -/
theorem claim_C6 {H M J : Type} (rm : RouteManagerS H M)
    (globalMws : List (RequestS J → RequestS J))
    (runRouteMw : M → RequestS J → RequestS J)
    (runHandler : H → RequestS J → ResponseS → List (String × PyVal) →
      Except String ResponseS)
    (jsonLoads : String → Option J)
    (parseQs : String → List (String × List String))
    (parseQsl : String → List (String × String))
    (env : Environ) (req0 : RequestS J) (h : H)
    (params : List (String × PyVal)) (routeMws : List M) (e : String)
    (raw : String) (parseReq : String → Except String Environ)
    (hreq : requestInit jsonLoads parseQs parseQsl env = .ok req0)
    (hfind : findRoute rm (applyFns globalMws req0).pathInfo
      (applyFns globalMws req0).method = (some h, params, routeMws))
    (hraise : runHandler h
      (routeMws.foldl (fun r m => runRouteMw m r) (applyFns globalMws req0))
      responseInit params = .error e)
    (hparse : parseReq raw = .ok env) :
    liveRocketCall rm globalMws runRouteMw runHandler jsonLoads parseQs
        parseQsl env = .error e ∧
    handleWsgiRequest
        (liveRocketCall rm globalMws runRouteMw runHandler jsonLoads parseQs
          parseQsl) env =
      createErrorResponse 500 ("Internal Server Error: " ++ e) ∧
    createErrorResponse 500 ("Internal Server Error: " ++ e) =
      utf8Encode ("HTTP/1.1 500 Internal Server Error" ++
          "\r\nContent-Type: text/html\r\nContent-Length: " ++
          toString (utf8Encode
            (errorBody 500 ("Internal Server Error: " ++ e))).length ++
          "\r\nConnection: close\r\n\r\n") ++
        utf8Encode (errorBody 500 ("Internal Server Error: " ++ e)) ∧
    containsStr (errorBody 500 ("Internal Server Error: " ++ e)) e = true ∧
    handleRequest (some raw) parseReq
        (liveRocketCall rm globalMws runRouteMw runHandler jsonLoads parseQs
          parseQsl) =
      ⟨[createErrorResponse 500 ("Internal Server Error: " ++ e)], true⟩ := by
  have hcall : liveRocketCall rm globalMws runRouteMw runHandler jsonLoads
      parseQs parseQsl env = .error e := by
    unfold liveRocketCall
    rw [hreq]
    simp only [hfind, hraise]
  refine ⟨hcall, ?_, ?_, errorBody_contains 500 "Internal Server Error: " e,
    ?_⟩
  · unfold handleWsgiRequest
    rw [hcall]
  · rfl
  · unfold handleRequest
    simp only [hparse]
    unfold handleWsgiRequest
    rw [hcall]

/-- Witness for C6: a concrete raising handler on a matched static route. -/
theorem claim_C6_witness :
    handleRequest (some "GET /h HTTP/1.1\r\n\r\n")
        (fun _ => .ok ⟨"GET", "/h", "", "", "", []⟩)
        (liveRocketCall
          (addRoute (emptyRM (H := Nat) (M := Nat)) "/h" "GET" 5 []) []
          (fun _ r => r) (fun _ _ _ _ => .error "boom") (J := Unit)
          (fun _ => none) (fun _ => []) (fun _ => [])) =
      ⟨[createErrorResponse 500 ("Internal Server Error: " ++ "boom")],
        true⟩ :=
  (claim_C6 (addRoute (emptyRM (H := Nat) (M := Nat)) "/h" "GET" 5 []) []
    (fun _ r => r) (fun _ _ _ _ => .error "boom") (fun _ => none)
    (fun _ => []) (fun _ => []) ⟨"GET", "/h", "", "", "", []⟩
    ⟨"GET", "/h", [], .empty, none⟩ 5 [] [] "boom" "GET /h HTTP/1.1\r\n\r\n"
    (fun _ => .ok ⟨"GET", "/h", "", "", "", []⟩)
    rfl (by decide) rfl rfl).2.2.2.2

/-! ### C7: malformed JSON bodies -/

/-- **C7, counterexample.** A request whose Content-Type contains
`application/json` and whose Content-Length is the positive integer 1, but
whose single body byte `0xFF` is not valid UTF-8 (and hence not valid JSON),
makes `Request.__init__` raise a `UnicodeDecodeError` — the `except` clause
only catches `json.JSONDecodeError` — instead of swallowing the failure into
an empty body mapping. -/
theorem claim_C7_counterexample :
    containsStr "application/json" "application/json" = true ∧
    pyIntStr "1" = some 1 ∧ (0 : Int) < 1 ∧
    utf8Decode ([255].take ((1 : Int).toNat)) = none ∧
    requestInit (J := Unit) (fun _ => none) (fun _ => []) (fun _ => [])
        ⟨"POST", "/", "", "application/json", "1", [255]⟩ =
      .error "UnicodeDecodeError" :=
  ⟨by decide, by decide, by decide, by decide, rfl⟩

/-- **C7, amended.** For every request whose Content-Type contains
`application/json` but not `application/x-www-form-urlencoded`, whose
Content-Length parses to a positive integer, and whose body bytes decode as
UTF-8 to a text that the JSON parser rejects, constructing the request
context raises no error and the parsed body is the empty mapping. -/
theorem claim_C7_amended {J : Type} (jsonLoads : String → Option J)
    (parseQs : String → List (String × List String))
    (parseQsl : String → List (String × String))
    (env : Environ) (n : Int) (s : String)
    (hjson : containsStr env.contentType "application/json" = true)
    (hform : containsStr env.contentType "application/x-www-form-urlencoded" =
      false)
    (hne : env.contentLength ≠ "")
    (hcl : pyIntStr env.contentLength = some n)
    (hpos : 0 < n)
    (hdec : utf8Decode (env.inputBytes.take n.toNat) = some s)
    (hbad : jsonLoads s = none) :
    ∃ r, requestInit jsonLoads parseQs parseQsl env = .ok r ∧
      r.body = PyBody.empty := by
  unfold requestInit
  rw [if_pos hne, hcl]
  simp only [if_pos hpos, hform, hjson, hdec, hbad]
  exact ⟨_, rfl, rfl⟩

/-- Witness for the amended C7: body bytes `"abc"` decode but are rejected by
the JSON parser, and the body mapping comes out empty. -/
theorem claim_C7_amended_witness :
    ∃ r, requestInit (J := Unit) (fun _ => none) (fun _ => []) (fun _ => [])
        ⟨"POST", "/", "", "application/json", "3", [97, 98, 99]⟩ = .ok r ∧
      r.body = PyBody.empty :=
  claim_C7_amended (fun _ => none) (fun _ => []) (fun _ => [])
    ⟨"POST", "/", "", "application/json", "3", [97, 98, 99]⟩ 3 "abc"
    (by decide) (by decide) (by decide) (by decide) (by decide) (by decide)
    rfl

/-! ### C5: placeholder-free templates -/

/-- **C5, counterexample.** The placeholder-free template `/a.b` does not
degenerate to an exact string compare: the literal dot becomes a regex
wildcard, so `/axb` matches even though it differs from the template. -/
theorem claim_C5_counterexample :
    scanPlaceholders "/a.b".toList = [] ∧
    urlPatternMatch (mkURLPattern "/a.b".toList) "/axb".toList = some [] ∧
    "/axb".toList ≠ "/a.b".toList :=
  ⟨by decide, by decide, by decide⟩

theorem mkURLPattern_no_placeholder (t : List Char)
    (hscan : scanPlaceholders t = []) :
    mkURLPattern t =
      { pattern := t, regexPattern := '^' :: t ++ ['$'],
        parameterNames := [] } := by
  unfold mkURLPattern
  rw [hscan]
  rfl

theorem parseRegex_lits (t : List Char)
    (hsafe : ∀ c ∈ t, isRegexSpecial c = false) :
    parseRegexAux none t = some (t.map Piece.lit) := by
  induction t with
  | nil => rfl
  | cons c rest ih =>
    have hc := hsafe c (by simp)
    have hpar : c ≠ '(' := by
      intro hcontra; rw [hcontra] at hc; exact absurd hc (by decide)
    have hdot : c ≠ '.' := by
      intro hcontra; rw [hcontra] at hc; exact absurd hc (by decide)
    have ht : ∀ c' ∈ rest, isRegexSpecial c' = false := fun c' hc' =>
      hsafe c' (by simp [hc'])
    simp only [parseRegexAux, if_neg hpar, if_neg hdot, hc,
      Bool.false_eq_true, if_false, ih ht, Option.map_some]
    rfl

theorem matchAux_lits (t : List Char) (f : Nat) (url : List Char)
    (hf : t.length ≤ f) :
    matchAux f (t.map Piece.lit) url = if url = t then some [] else none := by
  induction t generalizing f url with
  | nil =>
    match url with
    | [] => simp [matchAux]
    | c :: us => simp [matchAux]
  | cons c rest ih =>
    match f with
    | 0 => exact absurd hf (by simp)
    | f' + 1 =>
      have hf' : rest.length ≤ f' := by
        simpa [Nat.succ_le_succ_iff] using hf
      match url with
      | [] => simp [matchAux]
      | d :: ds =>
        by_cases hd : d = c
        · subst hd
          simp only [List.map_cons, matchAux, if_pos rfl, ih f' ds hf']
          by_cases hds : ds = rest
          · simp [hds]
          · simp [hds]
        · simp only [List.map_cons, matchAux, if_neg hd]
          have : (d :: ds ≠ c :: rest) := by
            intro hcontra; exact hd (by injection hcontra)
          simp [this]

/-- **C5, amended.** A template with no scanned placeholders and no regex
metacharacters degenerates to an exact string compare up to Python's `$`
semantics: the match succeeds (with an empty parameter mapping) iff the url
is the template itself or the template followed by a single trailing
newline, and fails on every other url. -/
theorem claim_C5_amended (t url : List Char)
    (hscan : scanPlaceholders t = [])
    (hsafe : ∀ c ∈ t, isRegexSpecial c = false) :
    urlPatternMatch (mkURLPattern t) url =
      if url = t ∨ url = t ++ ['\n'] then some [] else none := by
  rw [mkURLPattern_no_placeholder t hscan]
  unfold urlPatternMatch
  have hne : ('^' :: t ++ ['$'] : List Char) ≠ [] := by simp
  rw [if_neg hne]
  have hstrip : stripAnchors ('^' :: t ++ ['$']) = some t := by
    show stripAnchors ('^' :: (t ++ ['$'])) = some t
    simp [stripAnchors, List.getLast?_concat, List.dropLast_concat]
  simp only [hstrip, parseRegex_lits t hsafe]
  have hm : ∀ u : List Char, matchPieces (t.map Piece.lit) u =
      if u = t then some [] else none := fun u =>
    matchAux_lits t (t.map Piece.lit).length u (by simp)
  by_cases h1 : url = t
  · simp [hm, h1, buildParams, buildParamsAux]
  · rw [hm url, if_neg h1]
    by_cases h2 : url = t ++ ['\n']
    · subst h2
      rw [List.getLast?_concat]
      simp only [if_pos rfl, List.dropLast_concat, hm t, if_pos rfl]
      simp [h1, buildParams, buildParamsAux]
    · simp only [if_neg (by tauto : ¬(url = t ∨ url = t ++ ['\n']))]
      by_cases h3 : url.getLast? = some '\n'
      · rw [if_pos h3, hm url.dropLast]
        have hunil : url ≠ [] := by
          intro hcontra; rw [hcontra] at h3; exact absurd h3 (by simp)
        have hlast : url.getLast hunil = '\n' := by
          have := List.getLast?_eq_getLast url hunil
          rw [h3] at this
          exact (Option.some_injective _ this.symm)
        have hdl : url.dropLast ≠ t := by
          intro hcontra
          apply h2
          have hsplit := List.dropLast_append_getLast hunil
          rw [hlast, hcontra] at hsplit
          exact hsplit.symm
        simp [hdl]
      · simp [h3]

/-- Witness for the amended C5: the safe template `/ab` matches itself
exactly. -/
theorem claim_C5_amended_witness :
    urlPatternMatch (mkURLPattern "/ab".toList) "/ab".toList =
      if ("/ab".toList = "/ab".toList ∨
          "/ab".toList = "/ab".toList ++ ['\n']) then some [] else none :=
  claim_C5_amended "/ab".toList "/ab".toList (by decide) (by decide)

/-! ### C8: parameter-name uniqueness is not enforced -/

/-- **C8, counterexample.** Compiling `/a/<id>/<id>` produces two captured
parameters with the same name: the ordered parameter list is not
pairwise-distinct. -/
theorem claim_C8_counterexample :
    (mkURLPattern "/a/<id>/<id>".toList).parameterNames =
      [("id", "string"), ("id", "string")] ∧
    ¬ ((mkURLPattern "/a/<id>/<id>".toList).parameterNames.map
        Prod.fst).Nodup :=
  ⟨by decide, by decide⟩

theorem foldl_compileStep_names (ms : List PMatch) (s : List Char)
    (init : List (String × String)) :
    (ms.foldl compileStep (s, init)).2 =
      init ++ ms.map fun m => (String.mk m.name, typeOfMatch m) := by
  induction ms generalizing s init with
  | nil => simp
  | cons m t ih =>
    show (t.foldl compileStep (compileStep (s, init) m)).2 = _
    rw [show compileStep (s, init) m =
      (replaceFirst m.full (typeAtom (typeOfMatch m)) s,
        init ++ [(String.mk m.name, typeOfMatch m)]) from rfl]
    rw [ih]
    simp

/-- **C8, amended.** Compilation emits exactly one `(name, type)` entry per
scanned placeholder occurrence, in template order; consequently the compiled
parameter list has pairwise-distinct names precisely when the template's
placeholder occurrences carry pairwise-distinct names — compilation neither
enforces nor creates uniqueness. -/
theorem claim_C8_amended (t : List Char) :
    (mkURLPattern t).parameterNames =
      ((scanPlaceholders t).map fun m => (String.mk m.name, typeOfMatch m)) ∧
    (((mkURLPattern t).parameterNames.map Prod.fst).Nodup ↔
      ((scanPlaceholders t).map fun m => String.mk m.name).Nodup) := by
  have hnames : (mkURLPattern t).parameterNames =
      ((scanPlaceholders t).map fun m => (String.mk m.name, typeOfMatch m)) := by
    show ((scanPlaceholders t).foldl compileStep (t, [])).2 = _
    rw [foldl_compileStep_names]
    simp
  refine ⟨hnames, ?_⟩
  rw [hnames, List.map_map]
  rfl

/-! ### C10: int-typed parameters are non-negative -/

/-- The capture types of a piece sequence, in order. -/
def capTypes : List Piece → List CapTy
  | [] => []
  | Piece.cap ty :: ps => ty :: capTypes ps
  | _ :: ps => capTypes ps

/-- Pointwise relation between two lists of equal length. -/
def relAll {α β : Type} (r : α → β → Prop) : List α → List β → Prop
  | [], [] => True
  | a :: as, b :: bs => r a b ∧ relAll r as bs
  | _, _ => False

theorem relAll_map_left {α α' β : Type} (r : α' → β → Prop) (f : α → α')
    (l : List α) (c : List β) :
    relAll r (l.map f) c ↔ relAll (fun a b => r (f a) b) l c := by
  induction l generalizing c with
  | nil => cases c <;> simp [relAll]
  | cons a t ih =>
    cases c with
    | nil => simp [relAll]
    | cons b bs => simp [relAll, ih]

/-- The capture type that `_compile_pattern` substitutes for a declared
parameter type (unknown types fall back to the string class). -/
def capOf (ty : String) : CapTy :=
  if ty = "int" then .int
  else if ty = "float" then .float
  else if ty = "path" then .path
  else if ty = "uuid" then .uuid
  else .str

theorem capOf_eq_int (ty : String) (h : capOf ty = CapTy.int) : ty = "int" := by
  by_cases h1 : ty = "int"
  · exact h1
  · exfalso
    unfold capOf at h
    rw [if_neg h1] at h
    by_cases h2 : ty = "float"
    · rw [if_pos h2] at h; exact absurd h (by decide)
    · rw [if_neg h2] at h
      by_cases h3 : ty = "path"
      · rw [if_pos h3] at h; exact absurd h (by decide)
      · rw [if_neg h3] at h
        by_cases h4 : ty = "uuid"
        · rw [if_pos h4] at h; exact absurd h (by decide)
        · rw [if_neg h4] at h; exact absurd h (by decide)

theorem firstSome_eq_some {α β : Type} (f : α → Option β) (l : List α)
    (b : β) (h : firstSome f l = some b) : ∃ a ∈ l, f a = some b := by
  induction l with
  | nil => exact absurd h (by simp [firstSome])
  | cons a t ih =>
    unfold firstSome at h
    match hfa : f a with
    | some b' =>
      rw [hfa] at h
      have h2 : some b' = some b := h
      exact ⟨a, by simp, by rw [hfa]; exact h2⟩
    | none =>
      rw [hfa] at h
      have h2 : firstSome f t = some b := h
      obtain ⟨a', ha', hfa'⟩ := ih h2
      exact ⟨a', by simp [ha'], hfa'⟩

theorem mem_descInitRuns {r cand : List Char}
    (h : cand ∈ descInitRuns r) : cand ≠ [] ∧ ∀ c ∈ cand, c ∈ r := by
  unfold descInitRuns at h
  simp only [List.mem_map, List.mem_range] at h
  obtain ⟨i, hi, hc⟩ := h
  subst hc
  constructor
  · intro hcontra
    have hlen := congrArg List.length hcontra
    simp only [List.length_take, List.length_nil] at hlen
    omega
  · intro c hc
    exact List.mem_of_mem_take hc

theorem mem_capCands_int {ds cand : List Char}
    (h : cand ∈ capCands CapTy.int ds) :
    cand ≠ [] ∧ cand.all Char.isDigit = true := by
  have h' : cand ∈ descInitRuns (ds.takeWhile Char.isDigit) := h
  obtain ⟨hne, hmem⟩ := mem_descInitRuns h'
  refine ⟨hne, ?_⟩
  rw [List.all_eq_true]
  intro c hc
  exact List.mem_takeWhile_imp (hmem c hc)

/-- The matcher-level half of C10: whenever the backtracking matcher
succeeds, every capture consumed by an `int` atom is a nonempty string of
digits. -/
theorem matchAux_int_digits (f : Nat) (ps : List Piece) (ds : List Char)
    (caps : List (List Char)) (h : matchAux f ps ds = some caps) :
    relAll (fun ty c => ty = CapTy.int → c ≠ [] ∧ c.all Char.isDigit = true)
      (capTypes ps) caps := by
  induction f generalizing ps ds caps with
  | zero =>
    match ps, ds with
    | [], [] =>
      have hc : caps = [] := by
        have := h; simp [matchAux] at this; exact this
      subst hc
      exact trivial
    | [], _ :: _ => exact absurd h (by simp [matchAux])
    | _ :: _, _ => exact absurd h (by simp [matchAux])
  | succ f ih =>
    match ps with
    | [] =>
      match ds with
      | [] =>
        have hc : caps = [] := by
          have := h; simp [matchAux] at this; exact this
        subst hc
        exact trivial
      | _ :: _ => exact absurd h (by simp [matchAux])
    | Piece.lit c :: ps' =>
      match ds with
      | [] => exact absurd h (by simp [matchAux])
      | d :: ds' =>
        rw [show matchAux (f + 1) (Piece.lit c :: ps') (d :: ds') =
          if d = c then matchAux f ps' ds' else none from rfl] at h
        by_cases hd : d = c
        · rw [if_pos hd] at h
          exact ih ps' ds' caps h
        · rw [if_neg hd] at h
          exact absurd h (by simp)
    | Piece.dot :: ps' =>
      match ds with
      | [] => exact absurd h (by simp [matchAux])
      | d :: ds' =>
        rw [show matchAux (f + 1) (Piece.dot :: ps') (d :: ds') =
          if d = '\n' then none else matchAux f ps' ds' from rfl] at h
        by_cases hd : d = '\n'
        · rw [if_pos hd] at h
          exact absurd h (by simp)
        · rw [if_neg hd] at h
          exact ih ps' ds' caps h
    | Piece.cap ty :: ps' =>
      rw [show matchAux (f + 1) (Piece.cap ty :: ps') ds =
        firstSome (fun cand =>
          (matchAux f ps' (ds.drop cand.length)).map (cand :: ·))
          (capCands ty ds) from rfl] at h
      obtain ⟨cand, hcand, hf⟩ := firstSome_eq_some _ _ _ h
      match hrec : matchAux f ps' (ds.drop cand.length) with
      | none =>
        rw [hrec] at hf
        exact absurd hf (by simp)
      | some caps' =>
        rw [hrec] at hf
        have hf2 : some (cand :: caps') = some caps := hf
        have hcaps := Option.some.inj hf2
        subst hcaps
        show (ty = CapTy.int → _) ∧ relAll _ (capTypes ps') caps'
        refine ⟨?_, ih ps' (ds.drop cand.length) caps' hrec⟩
        intro hty
        subst hty
        exact mem_capCands_int hcand

/-! #### Segmented templates: literal separators interleaved with placeholders.

`flattenSegs segs tail` is the template `sep₁<content₁>sep₂<content₂>…tail`;
when every separator is free of `'<'` and every content is nonempty and free
of `'>'`, the scanner finds exactly the listed placeholders and compilation
substitutes each atom in place, so the compiled parameter list aligns
positionally with the capture atoms of the generated regex. -/
def flattenSegs : List (List Char × List Char) → List Char → List Char
  | [], tail => tail
  | (sep, content) :: rest, tail =>
    sep ++ (('<' :: content) ++ ('>' :: flattenSegs rest tail))

/-- The regex body `_compile_pattern` produces for a segmented template. -/
def flattenRegex : List (List Char × List Char) → List Char → List Char
  | [], tail => tail
  | (sep, content) :: rest, tail =>
    sep ++ (typeAtom (typeOfMatch (mkPMatch content)) ++
      flattenRegex rest tail)

theorem scanAux_nil (f : Nat) : scanAux f [] = [] := by
  cases f <;> rfl

theorem scanAux_no_lt (f : Nat) (l : List Char) (hl : ∀ c ∈ l, c ≠ '<') :
    scanAux f l = [] := by
  induction f generalizing l with
  | zero => rfl
  | succ f ih =>
    match l with
    | [] => rfl
    | c :: t =>
      have hc : c ≠ '<' := hl c (by simp)
      simp only [scanAux, if_neg hc]
      exact ih t fun c' hc' => hl c' (by simp [hc'])

theorem scanAux_skip (sep : List Char) (f : Nat) (r : List Char)
    (hsep : ∀ c ∈ sep, c ≠ '<') :
    scanAux (sep.length + f) (sep ++ r) = scanAux f r := by
  induction sep with
  | nil => simp
  | cons c t ih =>
    have hc : c ≠ '<' := hsep c (by simp)
    have hlen : (c :: t).length + f = (t.length + f) + 1 := by
      simp [List.length_cons]; omega
    rw [hlen]
    show scanAux ((t.length + f) + 1) (c :: (t ++ r)) = _
    simp only [scanAux, if_neg hc]
    exact ih fun c' hc' => hsep c' (by simp [hc'])

theorem splitAtGt_length (t : List Char) :
    ∀ content rest, splitAtGt t = some (content, rest) →
      t.length = content.length + rest.length + 1 := by
  induction t with
  | nil => intro content rest h; exact absurd h (by simp [splitAtGt])
  | cons c t' ih =>
    intro content rest h
    unfold splitAtGt at h
    by_cases hc : c = '>'
    · rw [if_pos hc] at h
      have h2 := Option.some.inj h
      have h3 : ([] : List Char) = content := congrArg Prod.fst h2
      have h4 : t' = rest := congrArg Prod.snd h2
      subst h3; subst h4
      simp
    · rw [if_neg hc] at h
      match hsp : splitAtGt t' with
      | none => rw [hsp] at h; exact absurd h (by simp)
      | some (content', rest') =>
        rw [hsp] at h
        have h2 : some (c :: content', rest') = some (content, rest) := h
        have h3 := Option.some.inj h2
        have h4 : c :: content' = content := congrArg Prod.fst h3
        have h5 : rest' = rest := congrArg Prod.snd h3
        subst h4; subst h5
        have := ih content' rest' hsp
        simp [this]
        omega

theorem scanAux_big (f : Nat) :
    ∀ (g : Nat) (l : List Char), l.length ≤ g → g ≤ f →
      scanAux g l = scanPlaceholders l := by
  induction f with
  | zero =>
    intro g l hlg hgf
    have hg : g = 0 := Nat.le_zero.mp hgf
    subst hg
    have hl : l = [] := List.length_eq_zero.mp (Nat.le_zero.mp hlg)
    subst hl
    rfl
  | succ f ih =>
    intro g l hlg hgf
    match l with
    | [] => rw [scanAux_nil]; rfl
    | c :: t =>
      match g with
      | 0 => exact absurd hlg (by simp)
      | g' + 1 =>
        have hlt : t.length ≤ g' := by
          simp only [List.length_cons] at hlg; omega
        have hgf' : g' ≤ f := by omega
        show scanAux (g' + 1) (c :: t) = scanAux (c :: t).length (c :: t)
        simp only [List.length_cons, scanAux]
        by_cases hc : c = '<'
        · rw [if_pos hc, if_pos hc]
          match hsp : splitAtGt t with
          | none => simp only [hsp]
          | some (content, rest) =>
            simp only [hsp]
            have hrl : rest.length ≤ t.length := by
              have := splitAtGt_length t content rest hsp
              omega
            by_cases hcon : content = []
            · rw [if_pos hcon, if_pos hcon]
              rw [ih g' t hlt hgf', ih t.length t (le_refl _) (by omega)]
            · rw [if_neg hcon, if_neg hcon]
              rw [ih g' rest (by omega) hgf',
                ih t.length rest hrl (by omega)]
        · rw [if_neg hc, if_neg hc]
          rw [ih g' t hlt hgf', ih t.length t (le_refl _) (by omega)]

theorem splitAtGt_of_no_gt (content : List Char) :
    ∀ rest, (∀ c ∈ content, c ≠ '>') →
      splitAtGt (content ++ '>' :: rest) = some (content, rest) := by
  induction content with
  | nil => intro rest _; simp [splitAtGt]
  | cons c t ih =>
    intro rest h
    have hc : c ≠ '>' := h c (by simp)
    show splitAtGt (c :: (t ++ '>' :: rest)) = _
    unfold splitAtGt
    rw [if_neg hc, ih rest fun c' hc' => h c' (by simp [hc'])]
    rfl

theorem scan_flatten (segs : List (List Char × List Char)) :
    ∀ (tail : List Char),
      (∀ s ∈ segs, (∀ c ∈ s.1, c ≠ '<') ∧ s.2 ≠ [] ∧ (∀ c ∈ s.2, c ≠ '>')) →
      (∀ c ∈ tail, c ≠ '<') →
      scanPlaceholders (flattenSegs segs tail) =
        segs.map fun s => mkPMatch s.2 := by
  induction segs with
  | nil => intro tail _ htail; exact scanAux_no_lt _ tail htail
  | cons s rest ih =>
    intro tail hsegs htail
    obtain ⟨sep, content⟩ := s
    obtain ⟨hsep, hcne, hcgt⟩ := hsegs (sep, content) (by simp)
    have hrest : ∀ s ∈ rest, (∀ c ∈ s.1, c ≠ '<') ∧ s.2 ≠ [] ∧
        (∀ c ∈ s.2, c ≠ '>') := fun s hs => hsegs s (by simp [hs])
    show scanPlaceholders
        (sep ++ (('<' :: content) ++ ('>' :: flattenSegs rest tail))) = _
    unfold scanPlaceholders
    rw [List.length_append]
    rw [scanAux_skip sep _ _ hsep]
    show scanAux (('<' :: content) ++ ('>' :: flattenSegs rest tail)).length
      ('<' :: (content ++ ('>' :: flattenSegs rest tail))) = _
    rw [show (('<' :: content) ++ ('>' :: flattenSegs rest tail)).length =
      (content ++ ('>' :: flattenSegs rest tail)).length + 1 by simp]
    simp only [scanAux, if_pos rfl]
    simp only [splitAtGt_of_no_gt content _ hcgt]
    simp only [if_neg hcne]
    rw [scanAux_big (content ++ ('>' :: flattenSegs rest tail)).length
      (content ++ ('>' :: flattenSegs rest tail)).length
      (flattenSegs rest tail) (by simp; omega) (le_refl _)]
    rw [ih tail hrest htail]
    rfl

theorem mkPMatch_full (content : List Char) :
    (mkPMatch content).full = '<' :: content ++ ['>'] := by
  unfold mkPMatch
  match hsp : splitAtColon content with
  | none => simp only [hsp]
  | some (a, b) =>
    simp only [hsp]
    by_cases h : a ≠ [] ∧ b ≠ []
    · rw [if_pos h]
    · rw [if_neg h]

theorem typeAtom_no_lt (ty : String) : ∀ c ∈ typeAtom ty, c ≠ '<' := by
  unfold typeAtom
  split_ifs <;> decide

theorem replaceFirst_after (pre : List Char) (hpre : ∀ c ∈ pre, c ≠ '<')
    (nt repl suffix : List Char) :
    replaceFirst ('<' :: nt) repl (pre ++ (('<' :: nt) ++ suffix)) =
      pre ++ (repl ++ suffix) := by
  induction pre with
  | nil =>
    show replaceFirst ('<' :: nt) repl ('<' :: (nt ++ suffix)) = repl ++ suffix
    unfold replaceFirst
    have hst : isStartOf ('<' :: nt) ('<' :: (nt ++ suffix)) = true :=
      isStartOf_append_self ('<' :: nt) suffix
    rw [if_pos hst]
    show repl ++ (('<' :: nt) ++ suffix).drop ('<' :: nt).length = _
    rw [List.drop_left]
  | cons c pre' ih =>
    have hc : c ≠ '<' := hpre c (by simp)
    have hstart : isStartOf ('<' :: nt)
        (c :: (pre' ++ (('<' :: nt) ++ suffix))) = false := by
      show (('<' = c) && isStartOf nt (pre' ++ (('<' :: nt) ++ suffix))) =
        false
      have : ('<' = c) = False := by
        simp only [eq_iff_iff, iff_false]
        exact fun hx => hc hx.symm
      simp [this]
    show replaceFirst ('<' :: nt) repl
      (c :: (pre' ++ (('<' :: nt) ++ suffix))) = _
    unfold replaceFirst
    rw [hstart]
    simp only [Bool.false_eq_true, if_false]
    rw [ih fun c' hc' => hpre c' (by simp [hc'])]
    rfl

theorem compile_flatten (segs : List (List Char × List Char)) :
    ∀ (tail A : List Char) (ns : List (String × String)),
      (∀ s ∈ segs, ∀ c ∈ s.1, c ≠ '<') →
      (∀ c ∈ A, c ≠ '<') →
      (segs.map fun s => mkPMatch s.2).foldl compileStep
          (A ++ flattenSegs segs tail, ns) =
        (A ++ flattenRegex segs tail,
          ns ++ segs.map fun s =>
            (String.mk (mkPMatch s.2).name, typeOfMatch (mkPMatch s.2))) := by
  induction segs with
  | nil => intro tail A ns _ _; simp [flattenSegs, flattenRegex]
  | cons s rest ih =>
    intro tail A ns hsegs hA
    obtain ⟨sep, content⟩ := s
    have hsep : ∀ c ∈ sep, c ≠ '<' := hsegs (sep, content) (by simp)
    have hrest : ∀ s ∈ rest, ∀ c ∈ s.1, c ≠ '<' := fun s hs =>
      hsegs s (by simp [hs])
    show (rest.map fun s => mkPMatch s.2).foldl compileStep
        (compileStep
          (A ++ (sep ++ (('<' :: content) ++ ('>' :: flattenSegs rest tail))),
            ns) (mkPMatch content)) = _
    have hstep : compileStep
        (A ++ (sep ++ (('<' :: content) ++ ('>' :: flattenSegs rest tail))),
          ns) (mkPMatch content) =
        ((A ++ sep) ++ ((typeAtom (typeOfMatch (mkPMatch content))) ++
            flattenSegs rest tail),
          ns ++ [(String.mk (mkPMatch content).name,
            typeOfMatch (mkPMatch content))]) := by
      unfold compileStep
      rw [mkPMatch_full]
      have hAsep : ∀ c ∈ A ++ sep, c ≠ '<' := by
        intro c hc
        rcases List.mem_append.mp hc with h1 | h1
        · exact hA c h1
        · exact hsep c h1
      have hhay : A ++ (sep ++ (('<' :: content) ++
          ('>' :: flattenSegs rest tail))) =
          (A ++ sep) ++ (('<' :: (content ++ ['>'])) ++
            flattenSegs rest tail) := by
        simp [List.append_assoc]
      rw [hhay]
      rw [show ('<' :: content ++ ['>'] : List Char) =
        '<' :: (content ++ ['>']) from rfl]
      dsimp only
      rw [replaceFirst_after (A ++ sep) hAsep (content ++ ['>'])
        (typeAtom (typeOfMatch (mkPMatch content))) (flattenSegs rest tail)]
    rw [hstep]
    have hA' : ∀ c ∈ (A ++ sep) ++
        typeAtom (typeOfMatch (mkPMatch content)), c ≠ '<' := by
      intro c hc
      rcases List.mem_append.mp hc with h1 | h1
      · rcases List.mem_append.mp h1 with h2 | h2
        · exact hA c h2
        · exact hsep c h2
      · exact typeAtom_no_lt _ c h1
    have := ih tail ((A ++ sep) ++ typeAtom (typeOfMatch (mkPMatch content)))
      (ns ++ [(String.mk (mkPMatch content).name,
        typeOfMatch (mkPMatch content))]) hrest hA'
    rw [show (A ++ sep) ++ ((typeAtom (typeOfMatch (mkPMatch content))) ++
        flattenSegs rest tail) =
        ((A ++ sep) ++ typeAtom (typeOfMatch (mkPMatch content))) ++
          flattenSegs rest tail by simp [List.append_assoc]]
    rw [this]
    simp [flattenRegex, List.append_assoc]

/-! #### Parsing the generated regex of a segmented template -/

theorem parse_atom (ty : String) (rest : List Char) :
    parseRegexAux none (typeAtom ty ++ rest) =
      (parseRegexAux none rest).map (Piece.cap (capOf ty) :: ·) := by
  by_cases h1 : ty = "string"
  · subst h1
    simp [typeAtom, capOf, strAtom, parseRegexAux, groupToCap, intAtom,
      floatAtom, pathAtom, uuidAtom, hexCls, lbr, rbr, isRegexSpecial]
  · by_cases h2 : ty = "int"
    · subst h2
      simp [typeAtom, capOf, strAtom, parseRegexAux, groupToCap, intAtom,
        floatAtom, pathAtom, uuidAtom, hexCls, lbr, rbr, isRegexSpecial]
    · by_cases h3 : ty = "float"
      · subst h3
        simp [typeAtom, capOf, strAtom, parseRegexAux, groupToCap, intAtom,
          floatAtom, pathAtom, uuidAtom, hexCls, lbr, rbr, isRegexSpecial]
      · by_cases h4 : ty = "path"
        · subst h4
          simp [typeAtom, capOf, strAtom, parseRegexAux, groupToCap, intAtom,
            floatAtom, pathAtom, uuidAtom, hexCls, lbr, rbr, isRegexSpecial]
        · by_cases h5 : ty = "uuid"
          · subst h5
            simp [typeAtom, capOf, strAtom, parseRegexAux, groupToCap,
              intAtom, floatAtom, pathAtom, uuidAtom, hexCls, lbr, rbr,
              isRegexSpecial]
          · simp only [typeAtom, capOf, if_neg h1, if_neg h2, if_neg h3,
              if_neg h4, if_neg h5]
            simp [strAtom, parseRegexAux, groupToCap, intAtom, floatAtom,
              pathAtom, uuidAtom, hexCls, lbr, rbr, isRegexSpecial]

theorem parse_step_lit (c : Char) (hc : c ≠ '(') (l : List Char)
    (pieces : List Piece) (h : parseRegexAux none (c :: l) = some pieces) :
    ∃ pieces', parseRegexAux none l = some pieces' ∧
      capTypes pieces = capTypes pieces' := by
  unfold parseRegexAux at h
  rw [if_neg hc] at h
  by_cases hdot : c = '.'
  · rw [if_pos hdot] at h
    match hp : parseRegexAux none l with
    | none => rw [hp] at h; exact absurd h (by simp)
    | some ps' =>
      rw [hp] at h
      have h2 : some (Piece.dot :: ps') = some pieces := h
      have h3 := Option.some.inj h2
      exact ⟨ps', rfl, by rw [← h3]; rfl⟩
  · rw [if_neg hdot] at h
    by_cases hsp : isRegexSpecial c = true
    · rw [if_pos hsp] at h
      exact absurd h (by simp)
    · rw [if_neg hsp] at h
      match hp : parseRegexAux none l with
      | none => rw [hp] at h; exact absurd h (by simp)
      | some ps' =>
        rw [hp] at h
        have h2 : some (Piece.lit c :: ps') = some pieces := h
        have h3 := Option.some.inj h2
        exact ⟨ps', rfl, by rw [← h3]; rfl⟩

theorem parse_seq_lits (sep : List Char) :
    ∀ (l : List Char) (pieces : List Piece), (∀ c ∈ sep, c ≠ '(') →
      parseRegexAux none (sep ++ l) = some pieces →
      ∃ pieces', parseRegexAux none l = some pieces' ∧
        capTypes pieces = capTypes pieces' := by
  induction sep with
  | nil => intro l pieces _ h; exact ⟨pieces, h, rfl⟩
  | cons c t ih =>
    intro l pieces hsep h
    have hc : c ≠ '(' := hsep c (by simp)
    obtain ⟨p1, hp1, he1⟩ := parse_step_lit c hc (t ++ l) pieces h
    obtain ⟨p2, hp2, he2⟩ := ih l p1 (fun c' hc' => hsep c' (by simp [hc'])) hp1
    exact ⟨p2, hp2, he1.trans he2⟩

theorem parse_empty_no_caps (l : List Char) :
    ∀ pieces, (∀ c ∈ l, c ≠ '(') → parseRegexAux none l = some pieces →
      capTypes pieces = [] := by
  intro pieces hl h
  obtain ⟨p', hp', he⟩ := parse_seq_lits l [] pieces hl (by
    rw [List.append_nil]; exact h)
  have h0 : some ([] : List Piece) = some p' := hp'
  have : p' = [] := (Option.some.inj h0).symm
  subst this
  rw [he]
  rfl

theorem parse_capTypes (segs : List (List Char × List Char)) :
    ∀ (tail : List Char) (pieces : List Piece),
      (∀ s ∈ segs, ∀ c ∈ s.1, c ≠ '(') → (∀ c ∈ tail, c ≠ '(') →
      parseRegexAux none (flattenRegex segs tail) = some pieces →
      capTypes pieces =
        segs.map fun s => capOf (typeOfMatch (mkPMatch s.2)) := by
  induction segs with
  | nil =>
    intro tail pieces hsegs htail h
    exact parse_empty_no_caps tail pieces htail h
  | cons s rest ih =>
    intro tail pieces hsegs htail h
    obtain ⟨sep, content⟩ := s
    have hsep : ∀ c ∈ sep, c ≠ '(' := hsegs (sep, content) (by simp)
    have hrest : ∀ s ∈ rest, ∀ c ∈ s.1, c ≠ '(' := fun s hs =>
      hsegs s (by simp [hs])
    have h' : parseRegexAux none
        (sep ++ (typeAtom (typeOfMatch (mkPMatch content)) ++
          flattenRegex rest tail)) = some pieces := h
    obtain ⟨p1, hp1, he1⟩ := parse_seq_lits sep _ pieces hsep h'
    rw [parse_atom] at hp1
    match hp2 : parseRegexAux none (flattenRegex rest tail) with
    | none => rw [hp2] at hp1; exact absurd hp1 (by simp)
    | some p2 =>
      rw [hp2] at hp1
      have h2 : some (Piece.cap (capOf (typeOfMatch (mkPMatch content))) ::
          p2) = some p1 := hp1
      have h3 := Option.some.inj h2
      rw [he1, ← h3]
      show capOf (typeOfMatch (mkPMatch content)) :: capTypes p2 = _
      rw [ih tail p2 hrest htail hp2]
      rfl

/-! #### From captures to parameter values -/

theorem mem_dictSet {V : Type} {d : List (String × V)} {k : String} {v : V}
    {kv : String × V} (h : kv ∈ dictSet d k v) : kv ∈ d ∨ kv = (k, v) := by
  induction d with
  | nil =>
    simp only [dictSet, List.mem_singleton] at h
    exact Or.inr h
  | cons hd t ih =>
    obtain ⟨k', v'⟩ := hd
    unfold dictSet at h
    by_cases hk : k' = k
    · rw [if_pos hk] at h
      rcases List.mem_cons.mp h with heq | hmem
      · exact Or.inr (by rw [heq, hk])
      · exact Or.inl (List.mem_cons_of_mem _ hmem)
    · rw [if_neg hk] at h
      rcases List.mem_cons.mp h with heq | hmem
      · exact Or.inl (by simp [heq])
      · rcases ih hmem with h1 | h1
        · exact Or.inl (List.mem_cons_of_mem _ h1)
        · exact Or.inr h1

theorem digit_not_space (c : Char) (h : c.isDigit = true) :
    isPySpace c = false := by
  by_contra hcontra
  have hsp : isPySpace c = true := by
    cases hx : isPySpace c
    · exact absurd hx hcontra
    · rfl
  unfold isPySpace at hsp
  simp only [Bool.or_eq_true, decide_eq_true_eq] at hsp
  rcases hsp with ((((h1 | h1) | h1) | h1) | h1) | h1 <;>
    (subst h1; exact absurd h (by decide))

theorem dropWhile_all_false {p : Char → Bool} (l : List Char)
    (h : ∀ x ∈ l, p x = false) : l.dropWhile p = l := by
  cases l with
  | nil => rfl
  | cons x t =>
    rw [List.dropWhile_cons, h x (by simp)]
    simp

theorem pyIntStr_digits (c : List Char) (hne : c ≠ [])
    (hd : c.all Char.isDigit = true) :
    pyIntStr (String.mk c) = some (Int.ofNat (digitsVal c)) := by
  unfold pyIntStr
  dsimp only
  have htl : (String.mk c).toList = c := rfl
  rw [htl]
  have hall : ∀ x ∈ c, Char.isDigit x = true := List.all_eq_true.mp hd
  have hnospace : ∀ x ∈ c, isPySpace x = false := fun x hx =>
    digit_not_space x (hall x hx)
  rw [dropWhile_all_false c hnospace,
    dropWhile_all_false c.reverse
      (fun x hx => hnospace x (List.mem_reverse.mp hx)),
    List.reverse_reverse]
  match c, hne with
  | d :: ds, _ =>
    have hdd : d.isDigit = true := hall d (by simp)
    have hplus : d ≠ '+' := by
      intro hcontra; rw [hcontra] at hdd; exact absurd hdd (by decide)
    have hminus : d ≠ '-' := by
      intro hcontra; rw [hcontra] at hdd; exact absurd hdd (by decide)
    simp only [if_neg hplus, if_neg hminus, if_pos hd]

theorem convertParam_int_nonneg (ty : String) (c : List Char) (v : PyVal)
    (hrel : capOf ty = CapTy.int → c ≠ [] ∧ c.all Char.isDigit = true)
    (hconv : convertParam ty c = some v) :
    ∀ n : Int, v = PyVal.int n → 0 ≤ n := by
  intro n hv
  subst hv
  unfold convertParam at hconv
  by_cases hty : ty = "int"
  · rw [if_pos hty] at hconv
    obtain ⟨hne, hdig⟩ := hrel (by rw [hty]; rfl)
    rw [pyIntStr_digits c hne hdig] at hconv
    have h2 : some (PyVal.int (Int.ofNat (digitsVal c))) =
        some (PyVal.int n) := hconv
    have h3 := Option.some.inj h2
    have hn : Int.ofNat (digitsVal c) = n := by injection h3
    rw [← hn]
    exact Int.ofNat_nonneg _
  · rw [if_neg hty] at hconv
    by_cases hfl : ty = "float"
    · rw [if_pos hfl] at hconv
      have h2 := Option.some.inj hconv
      exact absurd h2 (by simp)
    · rw [if_neg hfl] at hconv
      have h2 := Option.some.inj hconv
      exact absurd h2 (by simp)

theorem buildParamsAux_int_nonneg (names : List (String × String)) :
    ∀ (caps : List (List Char)) (acc : List (String × PyVal)),
      relAll (fun nt c => capOf nt.2 = CapTy.int →
        c ≠ [] ∧ c.all Char.isDigit = true) names caps →
      (∀ kv ∈ acc, ∀ n : Int, kv.2 = PyVal.int n → 0 ≤ n) →
      ∀ out, buildParamsAux names caps acc = some out →
      ∀ kv ∈ out, ∀ n : Int, kv.2 = PyVal.int n → 0 ≤ n := by
  induction names with
  | nil =>
    intro caps acc _ hacc out h
    have : acc = out := Option.some.inj h
    subst this
    exact hacc
  | cons nt names' ih =>
    intro caps acc hrel hacc out h
    match caps with
    | [] => exact absurd hrel (by simp [relAll])
    | c :: caps' =>
      obtain ⟨hr1, hrest⟩ := hrel
      obtain ⟨nm, ty⟩ := nt
      unfold buildParamsAux at h
      match hconv : convertParam ty c with
      | none => rw [hconv] at h; exact absurd h (by simp)
      | some v =>
        rw [hconv] at h
        have hv := convertParam_int_nonneg ty c v hr1 hconv
        refine ih caps' (dictSet acc nm v) hrest ?_ out h
        intro kv hkv n hn
        rcases mem_dictSet hkv with hmem | heq
        · exact hacc kv hmem n hn
        · rw [heq] at hn; exact hv n hn

theorem relAll_imp {α β : Type} {r r' : α → β → Prop}
    (hr : ∀ a b, r a b → r' a b) :
    ∀ (l : List α) (c : List β), relAll r l c → relAll r' l c := by
  intro l
  induction l with
  | nil =>
    intro c h
    cases c with
    | nil => exact h
    | cons b bs => exact (h : False).elim
  | cons a t ih =>
    intro c h
    cases c with
    | nil => exact (h : False).elim
    | cons b bs => exact ⟨hr a b h.1, ih bs h.2⟩

theorem stripAnchors_wrap (l : List Char) :
    stripAnchors ('^' :: l ++ ['$']) = some l := by
  show stripAnchors ('^' :: (l ++ ['$'])) = some l
  simp [stripAnchors, List.getLast?_concat, List.dropLast_concat]

theorem mkURLPattern_flatten (segs : List (List Char × List Char))
    (tail : List Char)
    (hsegs : ∀ s ∈ segs, (∀ c ∈ s.1, c ≠ '<') ∧ s.2 ≠ [] ∧
      (∀ c ∈ s.2, c ≠ '>'))
    (htail : ∀ c ∈ tail, c ≠ '<') :
    mkURLPattern (flattenSegs segs tail) =
      { pattern := flattenSegs segs tail
        regexPattern := '^' :: flattenRegex segs tail ++ ['$']
        parameterNames := segs.map fun s =>
          (String.mk (mkPMatch s.2).name, typeOfMatch (mkPMatch s.2)) } := by
  unfold mkURLPattern
  rw [scan_flatten segs tail hsegs htail]
  have := compile_flatten segs tail [] [] (fun s hs => (hsegs s hs).1)
    (by simp)
  simp only [List.nil_append] at this
  rw [this]

/-- **C10, counterexample.** The template `/(-5)/<int:id>` contains an
int-typed placeholder, yet matching the url with segments `-5` and `42`
succeeds and extracts the
NEGATIVE int-typed value `{id: -5}`: the literal `(-5)` in the template text
becomes a real capture group of the generated regex `^/(-5)/(\\d+)$`, so
group 1 — the group the conversion loop pairs with `id` — captures `-5`, and
`int("-5") = -5` raises nothing. -/
theorem claim_C10_counterexample :
    (mkURLPattern "/(-5)/<int:id>".toList).parameterNames = [("id", "int")] ∧
    urlPatternMatch (mkURLPattern "/(-5)/<int:id>".toList)
        "/-5/42".toList = some [("id", PyVal.int (-5))] ∧
    ¬ (0 : Int) ≤ -5 :=
  ⟨by decide, by decide, by decide⟩

theorem parse_seq_success (sep : List Char) :
    ∀ rest : List Char, (∀ c ∈ sep, isRegexSpecial c = false) →
      parseRegexAux none (sep ++ rest) =
        (parseRegexAux none rest).map (fun ps => sep.map Piece.lit ++ ps) := by
  induction sep with
  | nil =>
    intro rest _
    show parseRegexAux none rest = _
    cases hp : parseRegexAux none rest <;> simp [hp]
  | cons c t ih =>
    intro rest hsep
    have hc := hsep c (by simp)
    have hpar : c ≠ '(' := by
      intro hx; rw [hx] at hc; exact absurd hc (by decide)
    have hdot : c ≠ '.' := by
      intro hx; rw [hx] at hc; exact absurd hc (by decide)
    show parseRegexAux none (c :: (t ++ rest)) = _
    simp only [parseRegexAux, if_neg hpar, if_neg hdot, hc,
      Bool.false_eq_true, if_false,
      ih rest (fun c' hc' => hsep c' (by simp [hc']))]
    cases hp : parseRegexAux none rest <;> simp [hp]

theorem parse_flatten_success (segs : List (List Char × List Char)) :
    ∀ tail : List Char,
      (∀ s ∈ segs, ∀ c ∈ s.1, isRegexSpecial c = false) →
      (∀ c ∈ tail, isRegexSpecial c = false) →
      ∃ pieces, parseRegexAux none (flattenRegex segs tail) = some pieces := by
  induction segs with
  | nil =>
    intro tail _ htail
    exact ⟨tail.map Piece.lit, parseRegex_lits tail htail⟩
  | cons s rest ih =>
    intro tail hsegs htail
    obtain ⟨sep, content⟩ := s
    have hsep : ∀ c ∈ sep, isRegexSpecial c = false :=
      hsegs (sep, content) (by simp)
    have hrest : ∀ s ∈ rest, ∀ c ∈ s.1, isRegexSpecial c = false :=
      fun s hs => hsegs s (by simp [hs])
    obtain ⟨p2, hp2⟩ := ih tail hrest htail
    refine ⟨sep.map Piece.lit ++
      (Piece.cap (capOf (typeOfMatch (mkPMatch content))) :: p2), ?_⟩
    show parseRegexAux none (sep ++ (typeAtom (typeOfMatch (mkPMatch content))
      ++ flattenRegex rest tail)) = _
    rw [parse_seq_success sep _ hsep, parse_atom, hp2]
    rfl

/-- **C10, amended.** First conjunct, fully generally: whenever the
backtracking matcher succeeds, every capture consumed by an `int` atom is a
nonempty digit string — in particular it contains no minus sign, plus sign
or decimal point.  Second conjunct: for every template built from typed
placeholders (nonempty contents free of `>`) separated by literal text free
of `<` and of regex metacharacters — in particular free of `(`, whose
literal capture groups shift Python's group numbering and produce the
counterexample's negative value — every int-typed parameter value extracted
by a successful match is a non-negative integer.  Third conjunct: on that
class the generated regex always parses into the model's piece fragment, so
the second conjunct is not vacuous. -/
theorem claim_C10_amended :
    (∀ (f : Nat) (ps : List Piece) (ds : List Char) (caps : List (List Char)),
      matchAux f ps ds = some caps →
      relAll (fun ty c => ty = CapTy.int →
          c ≠ [] ∧ c.all Char.isDigit = true ∧
            c.all (fun ch => ch ≠ '-' ∧ ch ≠ '+' ∧ ch ≠ '.') = true)
        (capTypes ps) caps) ∧
    (∀ (segs : List (List Char × List Char)) (tail url : List Char)
      (params : List (String × PyVal)),
      (∀ s ∈ segs, (∀ c ∈ s.1, c ≠ '<' ∧ isRegexSpecial c = false) ∧
        s.2 ≠ [] ∧ (∀ c ∈ s.2, c ≠ '>')) →
      (∀ c ∈ tail, c ≠ '<' ∧ isRegexSpecial c = false) →
      urlPatternMatch (mkURLPattern (flattenSegs segs tail)) url =
        some params →
      ∀ nm (n : Int), (nm, PyVal.int n) ∈ params → 0 ≤ n) ∧
    (∀ (segs : List (List Char × List Char)) (tail : List Char),
      (∀ s ∈ segs, ∀ c ∈ s.1, isRegexSpecial c = false) →
      (∀ c ∈ tail, isRegexSpecial c = false) →
      ∃ pieces,
        parseRegexAux none (flattenRegex segs tail) = some pieces) := by
  have hdigit_sign : ∀ ch : Char, ch.isDigit = true →
      ch ≠ '-' ∧ ch ≠ '+' ∧ ch ≠ '.' := by
    intro ch h
    refine ⟨?_, ?_, ?_⟩ <;>
      (intro hcontra; rw [hcontra] at h; exact absurd h (by decide))
  refine ⟨?_, ?_, fun segs tail hsegs htail =>
    parse_flatten_success segs tail hsegs htail⟩
  · intro f ps ds caps h
    refine relAll_imp ?_ _ _ (matchAux_int_digits f ps ds caps h)
    intro ty c hr hty
    obtain ⟨hne, hdig⟩ := hr hty
    refine ⟨hne, hdig, ?_⟩
    rw [List.all_eq_true]
    intro ch hch
    have := List.all_eq_true.mp hdig ch hch
    simp only [decide_eq_true_eq] at this ⊢
    exact hdigit_sign ch this
  · intro segs tail url params hsegs htail hmatch nm n hmem
    have hsegs1 : ∀ s ∈ segs, (∀ c ∈ s.1, c ≠ '<') ∧ s.2 ≠ [] ∧
        (∀ c ∈ s.2, c ≠ '>') := fun s hs =>
      ⟨fun c hc => ((hsegs s hs).1 c hc).1, (hsegs s hs).2.1, (hsegs s hs).2.2⟩
    have hsegsP : ∀ s ∈ segs, ∀ c ∈ s.1, c ≠ '(' := by
      intro s hs c hc hx
      have := ((hsegs s hs).1 c hc).2
      rw [hx] at this
      exact absurd this (by decide)
    have htail1 : ∀ c ∈ tail, c ≠ '<' := fun c hc => (htail c hc).1
    have htailP : ∀ c ∈ tail, c ≠ '(' := by
      intro c hc hx
      have := (htail c hc).2
      rw [hx] at this
      exact absurd this (by decide)
    rw [mkURLPattern_flatten segs tail hsegs1 htail1] at hmatch
    unfold urlPatternMatch at hmatch
    rw [if_neg (by simp : ¬('^' :: flattenRegex segs tail ++ ['$'] :
      List Char) = [])] at hmatch
    simp only [stripAnchors_wrap] at hmatch
    match hparse : parseRegexAux none (flattenRegex segs tail) with
    | none =>
      simp only [hparse] at hmatch
      exact absurd hmatch (by simp)
    | some pieces =>
      simp only [hparse] at hmatch
      have hct : capTypes pieces =
          segs.map fun s => capOf (typeOfMatch (mkPMatch s.2)) :=
        parse_capTypes segs tail pieces hsegsP htailP hparse
      have hnames : (segs.map fun s =>
          (String.mk (mkPMatch s.2).name, typeOfMatch (mkPMatch s.2))).map
            (fun nt => capOf nt.2) =
          segs.map fun s => capOf (typeOfMatch (mkPMatch s.2)) := by
        rw [List.map_map]
        rfl
      have hfinish : ∀ (cs : List (List Char)),
          matchPieces pieces url = some cs ∨
            matchPieces pieces url.dropLast = some cs →
          buildParams (segs.map fun s =>
            (String.mk (mkPMatch s.2).name, typeOfMatch (mkPMatch s.2))) cs =
            some params →
          0 ≤ n := by
        intro cs hcs hbuild
        have hrel0 : relAll (fun ty c => ty = CapTy.int →
            c ≠ [] ∧ c.all Char.isDigit = true) (capTypes pieces) cs := by
          rcases hcs with h1 | h1
          · exact matchAux_int_digits pieces.length pieces url cs h1
          · exact matchAux_int_digits pieces.length pieces url.dropLast cs h1
        rw [hct, ← hnames] at hrel0
        have hrel1 := (relAll_map_left _ _ _ _).mp hrel0
        have hrel2 : relAll (fun (nt : String × String) c =>
            capOf nt.2 = CapTy.int → c ≠ [] ∧ c.all Char.isDigit = true)
            (segs.map fun s =>
              (String.mk (mkPMatch s.2).name, typeOfMatch (mkPMatch s.2)))
            cs := hrel1
        exact buildParamsAux_int_nonneg _ cs [] hrel2 (by simp) params hbuild
          (nm, PyVal.int n) hmem n rfl
      match hm1 : matchPieces pieces url with
      | some cs =>
        simp only [hm1] at hmatch
        exact hfinish cs (Or.inl hm1) hmatch
      | none =>
        simp only [hm1] at hmatch
        by_cases hnl : url.getLast? = some '\n'
        · rw [if_pos hnl] at hmatch
          match hm2 : matchPieces pieces url.dropLast with
          | some cs =>
            simp only [hm2] at hmatch
            exact hfinish cs (Or.inr hm2) hmatch
          | none =>
            simp only [hm2] at hmatch
            exact absurd hmatch (by simp)
        · rw [if_neg hnl] at hmatch
          exact absurd hmatch (by simp)

/-- Witness for the amended C10: the template `/users/<int:id>` on
`/users/42` extracts the non-negative integer 42. -/
theorem claim_C10_amended_witness :
    urlPatternMatch
        (mkURLPattern (flattenSegs [("/users/".toList, "int:id".toList)] []))
        "/users/42".toList = some [("id", PyVal.int 42)] ∧
    (0 : Int) ≤ 42 :=
  ⟨by decide,
    claim_C10_amended.2.1 [("/users/".toList, "int:id".toList)] []
      "/users/42".toList [("id", PyVal.int 42)] (by decide) (by decide)
      (by decide) "id" 42 (by decide)⟩

end LiveRocket
